import Mathlib

/-!
# Verification of the `heapdump-analyzer` HPROF decoder and resolver

A shallow embedding of the Rust sources (`src/parser/util.rs`,
`src/parser/sub_record.rs`, `src/parser/mod.rs`, `src/analzyer/mod.rs`)
as executable Lean definitions, followed by theorems settling the
specification claims.

Modelling conventions:
* bytes are `Nat` values (the source reads them from a file, so they are
  always `< 256`; nothing below depends on that bound);
* the byte source (`Cursor<Vec<u8>>` in the source) is a fixed `List Nat`
  plus an explicit position, every reader returns the value together with
  the new position;
* fallible code returns `Except Err`, with one error constructor per
  distinct `bail!` / error site of the source (the source uses `anyhow`
  strings; the names follow the specification's error vocabulary);
* `Err.segmentOverrun` exists in the vocabulary so that claims about it
  can be stated, the decoder itself never produces it;
* `Err.usizeUnderflow` models the abnormal termination (`usize` overflow
  panic in debug builds, capacity-overflow abort in release builds) of the
  unguarded `bytes_remaining - 8` subtraction in `Record::utf8`;
* the two loops whose trip count is not drawn from the input
  (`Record::heap_dump_segment`, `ParsedHeap::parse`) take a fuel
  parameter; the top-level wrappers pass `data.length + 1` fuel, which is
  sufficient because every iteration consumes at least one byte.
-/

namespace Heapdump

/-- Error vocabulary of the decoder and resolver (§7 of the spec); each
constructor corresponds to one error site of the source, except
`segmentOverrun` (named by the spec but produced nowhere in the source)
and `usizeUnderflow` (the panic/abort outcome of the unguarded `usize`
subtraction in `Record::utf8`, which is not a clean error return). -/
inductive Err where
  | io
  | badTag
  | unknownSubTag
  | badFieldType
  | badArrayType
  | badUtf8
  | unsupportedVersion
  | unsupportedIdentifierSize
  | invalidTimestamp
  | segmentOverrun
  | danglingStringRef
  | danglingClassRef
  | usizeUnderflow
deriving DecidableEq, Repr

/-- Decidable equality for `Except`, so that concrete decoder runs can be
settled by `decide`. -/
instance {ε α : Type} [DecidableEq ε] [DecidableEq α] :
    DecidableEq (Except ε α) := fun x y =>
  match x, y with
  | .ok a, .ok b =>
      if h : a = b then .isTrue (by rw [h])
      else .isFalse (by intro hh; cases hh; exact h rfl)
  | .error e, .error f =>
      if h : e = f then .isTrue (by rw [h])
      else .isFalse (by intro hh; cases hh; exact h rfl)
  | .ok _, .error _ => .isFalse (by intro hh; cases hh)
  | .error _, .ok _ => .isFalse (by intro hh; cases hh)

/-- `read_exact` into an `n`-byte buffer at position `pos`: succeeds iff
`n` bytes are available, returning the bytes and the advanced position.
Embeds the `read_exact` calls of `src/parser/util.rs`. -/
def readBytes (data : List Nat) (n pos : Nat) : Except Err (List Nat × Nat) :=
  if pos + n ≤ data.length then .ok ((data.drop pos).take n, pos + n)
  else .error .io

/-- Big-endian assembly of a byte list, as in `uN::from_be_bytes`. -/
def beNat (bs : List Nat) : Nat :=
  bs.foldl (fun a b => a * 256 + b) 0

/-- Shared shape of the `read_uN` helpers of `src/parser/util.rs`: read
`k` bytes and assemble them big-endian (`uN::from_be_bytes`). -/
def readBE (data : List Nat) (k pos : Nat) : Except Err (Nat × Nat) :=
  match readBytes data k pos with
  | .ok (bs, p) => .ok (beNat bs, p)
  | .error e => .error e

/-- `read_u8` of `src/parser/util.rs`. -/
def readU8 (data : List Nat) (pos : Nat) : Except Err (Nat × Nat) :=
  readBE data 1 pos

/-- `read_u16` of `src/parser/util.rs`. -/
def readU16 (data : List Nat) (pos : Nat) : Except Err (Nat × Nat) :=
  readBE data 2 pos

/-- `read_u32` of `src/parser/util.rs`. -/
def readU32 (data : List Nat) (pos : Nat) : Except Err (Nat × Nat) :=
  readBE data 4 pos

/-- `read_u64` of `src/parser/util.rs`. -/
def readU64 (data : List Nat) (pos : Nat) : Except Err (Nat × Nat) :=
  readBE data 8 pos

/-- `read_i32` of `src/parser/util.rs`: `i32::from_be_bytes`, i.e. the
big-endian value reinterpreted as a two's-complement 32-bit integer. -/
def readI32 (data : List Nat) (pos : Nat) : Except Err (Int × Nat) :=
  match readBE data 4 pos with
  | .ok (v, p) =>
      .ok (if v < 2 ^ 31 then (v : Int) else (v : Int) - 2 ^ 32, p)
  | .error e => .error e

/-- The modified-UTF-8 fixup loop of `read_utf8` in `src/parser/util.rs`:
one left-to-right pass replacing each byte pair `0xC0 0x80` by a single
`0x00` byte.  The source walks an index `i` with a lookahead
`i < buf.len() - 1 && buf[i + 1] == 0x80`; consuming the list two bytes
at a time is the same recursion. -/
def fixModUtf8 : List Nat → List Nat
  | [] => []
  | [b] => [b]
  | b :: c :: rest =>
      if b = 0xC0 ∧ c = 0x80 then 0x00 :: fixModUtf8 rest
      else b :: fixModUtf8 (c :: rest)

/-- A UTF-8 continuation byte (`0x80..=0xBF`). -/
def utf8Cont (b : Nat) : Bool := 0x80 ≤ b ∧ b ≤ 0xBF

/-- Second-byte constraint of a 3-byte UTF-8 sequence with lead byte `b`
(`0xE0` excludes overlong forms, `0xED` excludes surrogates). -/
def utf8Cont3 (b c : Nat) : Bool :=
  if b = 0xE0 then 0xA0 ≤ c ∧ c ≤ 0xBF
  else if b = 0xED then 0x80 ≤ c ∧ c ≤ 0x9F
  else utf8Cont c

/-- Second-byte constraint of a 4-byte UTF-8 sequence with lead byte `b`
(`0xF0` excludes overlong forms, `0xF4` caps at U+10FFFF). -/
def utf8Cont4 (b c : Nat) : Bool :=
  if b = 0xF0 then 0x90 ≤ c ∧ c ≤ 0xBF
  else if b = 0xF4 then 0x80 ≤ c ∧ c ≤ 0x8F
  else utf8Cont c

/-- Modelled from the behaviour of `String::from_utf8` in the Rust
standard library: standard (RFC 3629) UTF-8 well-formedness, as a
byte-at-a-time automaton whose state is the list of admissible ranges for
the pending continuation bytes (matching the second-byte restrictions of
the `E0`/`ED`/`F0`/`F4` lead bytes). -/
def validUtf8Aux : List (Nat × Nat) → List Nat → Bool
  | [], [] => true
  | _ :: _, [] => false
  | [], b :: rest =>
      if b < 0x80 then validUtf8Aux [] rest
      else if b < 0xC2 then false
      else if b < 0xE0 then validUtf8Aux [(0x80, 0xBF)] rest
      else if b < 0xF0 then
        (if b = 0xE0 then validUtf8Aux [(0xA0, 0xBF), (0x80, 0xBF)] rest
         else if b = 0xED then validUtf8Aux [(0x80, 0x9F), (0x80, 0xBF)] rest
         else validUtf8Aux [(0x80, 0xBF), (0x80, 0xBF)] rest)
      else if b < 0xF5 then
        (if b = 0xF0 then
          validUtf8Aux [(0x90, 0xBF), (0x80, 0xBF), (0x80, 0xBF)] rest
         else if b = 0xF4 then
          validUtf8Aux [(0x80, 0x8F), (0x80, 0xBF), (0x80, 0xBF)] rest
         else validUtf8Aux [(0x80, 0xBF), (0x80, 0xBF), (0x80, 0xBF)] rest)
      else false
  | (lo, hi) :: pending, b :: rest =>
      if lo ≤ b ∧ b ≤ hi then validUtf8Aux pending rest else false

/-- A byte sequence is valid UTF-8 when the automaton accepts it from the
empty state. -/
def validUtf8 (l : List Nat) : Bool :=
  validUtf8Aux [] l

/-- A single well-formed UTF-8 character encoding (RFC 3629): one of the
four scalar-value byte-sequence shapes.  Used to state which buffers the
modified-UTF-8 claims quantify over. -/
def validUtf8Char : List Nat → Bool
  | [b] => decide (b < 0x80)
  | [b, c] => decide (0xC2 ≤ b) && decide (b < 0xE0) && utf8Cont c
  | [b, c, d] =>
      decide (0xE0 ≤ b) && decide (b < 0xF0) && utf8Cont3 b c && utf8Cont d
  | [b, c, d, e] =>
      decide (0xF0 ≤ b) && decide (b < 0xF5) && utf8Cont4 b c &&
        utf8Cont d && utf8Cont e
  | _ => false

/-- `read_utf8` of `src/parser/util.rs`: read `n` bytes, apply the
modified-UTF-8 fixup, then validate as UTF-8 (`String::from_utf8`);
strings are kept as their byte sequences. -/
def readUtf8 (data : List Nat) (n pos : Nat) : Except Err (List Nat × Nat) :=
  match readBytes data n pos with
  | .ok (buf, p) =>
      if validUtf8 (fixModUtf8 buf) then .ok (fixModUtf8 buf, p)
      else .error .badUtf8
  | .error e => .error e

/-! ## Sub-record data model (`src/parser/sub_record.rs`) -/

/-- `FieldValue` of `src/parser/sub_record.rs`; floating-point values are
kept as raw bit patterns, exactly as in the source. -/
inductive FieldValue where
  | normalObject (object_id : Nat)
  | boolean (v : Nat)
  | char (v : Nat)
  | float (raw : Nat)
  | double (raw : Nat)
  | byte (v : Nat)
  | short (v : Nat)
  | int (v : Nat)
  | long (v : Nat)
deriving DecidableEq, Repr

/-- `Field` of `src/parser/sub_record.rs`. -/
structure Field where
  name_id : Nat
  value : FieldValue
deriving DecidableEq, Repr

/-- `FieldDescriptor` of `src/parser/sub_record.rs`. -/
structure FieldDescriptor where
  name_id : Nat
  typ : Nat
deriving DecidableEq, Repr

/-- `PrimArrayElement` of `src/parser/sub_record.rs`. -/
inductive PrimArrayElement where
  | bool (v : Nat)
  | byte (v : Nat)
  | char (v : Nat)
  | float (raw : Nat)
  | double (raw : Nat)
  | short (v : Nat)
  | int (v : Nat)
  | long (v : Nat)
deriving DecidableEq, Repr

/-- `SubRecord` of `src/parser/sub_record.rs`; constructor argument order
follows the struct field order of the source. -/
inductive SubRecord where
  | classDump (class_object_id stack_trace_serial_number super_class_object_id
      class_loader_object_id signers_object_id protection_domain_object_id
      reserved1 reserved2 instance_size constant_pool_size
      number_of_static_fields : Nat) (static_fields : List Field)
      (number_of_instance_fields : Nat)
      (instance_field_descriptors : List FieldDescriptor)
  | instanceDump (object_id stack_trace_serial_number class_object_id
      number_of_bytes : Nat) (raw_field_bytes : List Nat)
  | objArrayDump (object_id stack_trace_serial_number array_class_id : Nat)
      (elements : List Nat)
  | primArrayDump (object_id stack_trace_serial_number typ : Nat)
      (elements : List PrimArrayElement)
  | threadObj (object_id sequence_number stack_trace_sequence_number : Nat)
  | javaFrame (object_id thread_serial_number frame_number : Nat)
  | jniLocal (object_id thread_serial_number frame_number : Nat)
  | jniGlobal (object_id global_ref_id : Nat)
  | stickyClass (object_id : Nat)
  | heapDumpEnd
deriving DecidableEq, Repr

/-- The `matches!(sub_record, SubRecord::HeapDumpEnd)` test of
`Record::heap_dump_segment`. -/
def SubRecord.isHeapDumpEnd : SubRecord → Bool
  | .heapDumpEnd => true
  | _ => false

/-! ## Sub-record decoding (`src/parser/sub_record.rs`) -/

/-- `Field::new`: name id, type byte, then a value of type-dependent
width; unknown type byte is `invalid field type` (`BadFieldType`). -/
def fieldNew (data : List Nat) (pos : Nat) : Except Err (Field × Nat) :=
  match readU64 data pos with
  | .error e => .error e
  | .ok (name_id, p1) =>
      match readU8 data p1 with
      | .error e => .error e
      | .ok (typ, p2) =>
          match typ with
          | 0x02 =>
              match readU64 data p2 with
              | .ok (v, p3) => .ok (⟨name_id, .normalObject v⟩, p3)
              | .error e => .error e
          | 0x04 =>
              match readU8 data p2 with
              | .ok (v, p3) => .ok (⟨name_id, .boolean v⟩, p3)
              | .error e => .error e
          | 0x05 =>
              match readU16 data p2 with
              | .ok (v, p3) => .ok (⟨name_id, .char v⟩, p3)
              | .error e => .error e
          | 0x06 =>
              match readU32 data p2 with
              | .ok (v, p3) => .ok (⟨name_id, .float v⟩, p3)
              | .error e => .error e
          | 0x07 =>
              match readU64 data p2 with
              | .ok (v, p3) => .ok (⟨name_id, .double v⟩, p3)
              | .error e => .error e
          | 0x08 =>
              match readU8 data p2 with
              | .ok (v, p3) => .ok (⟨name_id, .byte v⟩, p3)
              | .error e => .error e
          | 0x09 =>
              match readU16 data p2 with
              | .ok (v, p3) => .ok (⟨name_id, .short v⟩, p3)
              | .error e => .error e
          | 0x0a =>
              match readU32 data p2 with
              | .ok (v, p3) => .ok (⟨name_id, .int v⟩, p3)
              | .error e => .error e
          | 0x0b =>
              match readU64 data p2 with
              | .ok (v, p3) => .ok (⟨name_id, .long v⟩, p3)
              | .error e => .error e
          | _ => .error .badFieldType

/-- The `for _ in 0..number_of_static_fields` loop of
`SubRecord::class_dump`. -/
def readStaticFields (data : List Nat) : Nat → Nat → Except Err (List Field × Nat)
  | 0, pos => .ok ([], pos)
  | n + 1, pos =>
      match fieldNew data pos with
      | .error e => .error e
      | .ok (f, p1) =>
          match readStaticFields data n p1 with
          | .error e => .error e
          | .ok (fs, p2) => .ok (f :: fs, p2)

/-- The `for _ in 0..number_of_instance_fields` loop of
`SubRecord::class_dump`. -/
def readFieldDescriptors (data : List Nat) :
    Nat → Nat → Except Err (List FieldDescriptor × Nat)
  | 0, pos => .ok ([], pos)
  | n + 1, pos =>
      match readU64 data pos with
      | .error e => .error e
      | .ok (name_id, p1) =>
          match readU8 data p1 with
          | .error e => .error e
          | .ok (typ, p2) =>
              match readFieldDescriptors data n p2 with
              | .error e => .error e
              | .ok (ds, p3) => .ok (⟨name_id, typ⟩ :: ds, p3)

/-- The `for _ in 0..number_of_elements { read_u64 }` loops of
`SubRecord::obj_array_dump` and `Record::trace`. -/
def readU64List (data : List Nat) : Nat → Nat → Except Err (List Nat × Nat)
  | 0, pos => .ok ([], pos)
  | n + 1, pos =>
      match readU64 data pos with
      | .error e => .error e
      | .ok (v, p1) =>
          match readU64List data n p1 with
          | .error e => .error e
          | .ok (vs, p2) => .ok (v :: vs, p2)

/-- One element of `SubRecord::prim_array_dump`'s loop body: the array's
type byte selects the width; `invalid array type` is `BadArrayType`. -/
def primElement (data : List Nat) (typ pos : Nat) :
    Except Err (PrimArrayElement × Nat) :=
  match typ with
  | 4 => match readU8 data pos with
      | .ok (v, p) => .ok (.bool v, p)
      | .error e => .error e
  | 5 => match readU16 data pos with
      | .ok (v, p) => .ok (.char v, p)
      | .error e => .error e
  | 6 => match readU32 data pos with
      | .ok (v, p) => .ok (.float v, p)
      | .error e => .error e
  | 7 => match readU64 data pos with
      | .ok (v, p) => .ok (.double v, p)
      | .error e => .error e
  | 8 => match readU8 data pos with
      | .ok (v, p) => .ok (.byte v, p)
      | .error e => .error e
  | 9 => match readU16 data pos with
      | .ok (v, p) => .ok (.short v, p)
      | .error e => .error e
  | 10 => match readU32 data pos with
      | .ok (v, p) => .ok (.int v, p)
      | .error e => .error e
  | 11 => match readU64 data pos with
      | .ok (v, p) => .ok (.long v, p)
      | .error e => .error e
  | _ => .error .badArrayType

/-- The `for _ in 0..number_of_elements` loop of
`SubRecord::prim_array_dump`. -/
def readPrimElements (data : List Nat) (typ : Nat) :
    Nat → Nat → Except Err (List PrimArrayElement × Nat)
  | 0, pos => .ok ([], pos)
  | n + 1, pos =>
      match primElement data typ pos with
      | .error e => .error e
      | .ok (el, p1) =>
          match readPrimElements data typ n p1 with
          | .error e => .error e
          | .ok (els, p2) => .ok (el :: els, p2)

/-- `SubRecord::class_dump`. -/
def classDump (data : List Nat) (pos : Nat) : Except Err (SubRecord × Nat) :=
  match readU64 data pos with
  | .error e => .error e
  | .ok (class_object_id, p1) =>
  match readU32 data p1 with
  | .error e => .error e
  | .ok (stack_trace_serial_number, p2) =>
  match readU64 data p2 with
  | .error e => .error e
  | .ok (super_class_object_id, p3) =>
  match readU64 data p3 with
  | .error e => .error e
  | .ok (class_loader_object_id, p4) =>
  match readU64 data p4 with
  | .error e => .error e
  | .ok (signers_object_id, p5) =>
  match readU64 data p5 with
  | .error e => .error e
  | .ok (protection_domain_object_id, p6) =>
  match readU64 data p6 with
  | .error e => .error e
  | .ok (reserved1, p7) =>
  match readU64 data p7 with
  | .error e => .error e
  | .ok (reserved2, p8) =>
  match readU32 data p8 with
  | .error e => .error e
  | .ok (instance_size, p9) =>
  match readU16 data p9 with
  | .error e => .error e
  | .ok (constant_pool_size, p10) =>
  match readU16 data p10 with
  | .error e => .error e
  | .ok (number_of_static_fields, p11) =>
  match readStaticFields data number_of_static_fields p11 with
  | .error e => .error e
  | .ok (static_fields, p12) =>
  match readU16 data p12 with
  | .error e => .error e
  | .ok (number_of_instance_fields, p13) =>
  match readFieldDescriptors data number_of_instance_fields p13 with
  | .error e => .error e
  | .ok (instance_field_descriptors, p14) =>
  .ok (.classDump class_object_id stack_trace_serial_number
    super_class_object_id class_loader_object_id signers_object_id
    protection_domain_object_id reserved1 reserved2 instance_size
    constant_pool_size number_of_static_fields static_fields
    number_of_instance_fields instance_field_descriptors, p14)

/-- `SubRecord::instance_dump`: fixed prefix, then `number_of_bytes`
opaque bytes retained verbatim. -/
def instanceDump (data : List Nat) (pos : Nat) : Except Err (SubRecord × Nat) :=
  match readU64 data pos with
  | .error e => .error e
  | .ok (object_id, p1) =>
  match readU32 data p1 with
  | .error e => .error e
  | .ok (stack_trace_serial_number, p2) =>
  match readU64 data p2 with
  | .error e => .error e
  | .ok (class_object_id, p3) =>
  match readU32 data p3 with
  | .error e => .error e
  | .ok (number_of_bytes, p4) =>
  match readBytes data number_of_bytes p4 with
  | .error e => .error e
  | .ok (raw_field_bytes, p5) =>
  .ok (.instanceDump object_id stack_trace_serial_number class_object_id
    number_of_bytes raw_field_bytes, p5)

/-- `SubRecord::obj_array_dump`: note the element count precedes the
array class id. -/
def objArrayDump (data : List Nat) (pos : Nat) : Except Err (SubRecord × Nat) :=
  match readU64 data pos with
  | .error e => .error e
  | .ok (object_id, p1) =>
  match readU32 data p1 with
  | .error e => .error e
  | .ok (stack_trace_serial_number, p2) =>
  match readU32 data p2 with
  | .error e => .error e
  | .ok (number_of_elements, p3) =>
  match readU64 data p3 with
  | .error e => .error e
  | .ok (array_class_id, p4) =>
  match readU64List data number_of_elements p4 with
  | .error e => .error e
  | .ok (elements, p5) =>
  .ok (.objArrayDump object_id stack_trace_serial_number array_class_id
    elements, p5)

/-- `SubRecord::prim_array_dump`. -/
def primArrayDump (data : List Nat) (pos : Nat) : Except Err (SubRecord × Nat) :=
  match readU64 data pos with
  | .error e => .error e
  | .ok (object_id, p1) =>
  match readU32 data p1 with
  | .error e => .error e
  | .ok (stack_trace_serial_number, p2) =>
  match readU32 data p2 with
  | .error e => .error e
  | .ok (number_of_elements, p3) =>
  match readU8 data p3 with
  | .error e => .error e
  | .ok (typ, p4) =>
  match readPrimElements data typ number_of_elements p4 with
  | .error e => .error e
  | .ok (elements, p5) =>
  .ok (.primArrayDump object_id stack_trace_serial_number typ elements, p5)

/-- `SubRecord::thread_obj`. -/
def threadObj (data : List Nat) (pos : Nat) : Except Err (SubRecord × Nat) :=
  match readU64 data pos with
  | .error e => .error e
  | .ok (object_id, p1) =>
  match readU32 data p1 with
  | .error e => .error e
  | .ok (sequence_number, p2) =>
  match readU32 data p2 with
  | .error e => .error e
  | .ok (stack_trace_sequence_number, p3) =>
  .ok (.threadObj object_id sequence_number stack_trace_sequence_number, p3)

/-- `SubRecord::java_frame`. -/
def javaFrame (data : List Nat) (pos : Nat) : Except Err (SubRecord × Nat) :=
  match readU64 data pos with
  | .error e => .error e
  | .ok (object_id, p1) =>
  match readU32 data p1 with
  | .error e => .error e
  | .ok (thread_serial_number, p2) =>
  match readU32 data p2 with
  | .error e => .error e
  | .ok (frame_number, p3) =>
  .ok (.javaFrame object_id thread_serial_number frame_number, p3)

/-- `SubRecord::jni_local`. -/
def jniLocal (data : List Nat) (pos : Nat) : Except Err (SubRecord × Nat) :=
  match readU64 data pos with
  | .error e => .error e
  | .ok (object_id, p1) =>
  match readU32 data p1 with
  | .error e => .error e
  | .ok (thread_serial_number, p2) =>
  match readU32 data p2 with
  | .error e => .error e
  | .ok (frame_number, p3) =>
  .ok (.jniLocal object_id thread_serial_number frame_number, p3)

/-- `SubRecord::jni_global`. -/
def jniGlobal (data : List Nat) (pos : Nat) : Except Err (SubRecord × Nat) :=
  match readU64 data pos with
  | .error e => .error e
  | .ok (object_id, p1) =>
  match readU64 data p1 with
  | .error e => .error e
  | .ok (global_ref_id, p2) =>
  .ok (.jniGlobal object_id global_ref_id, p2)

/-- `SubRecord::sticky_class`. -/
def stickyClass (data : List Nat) (pos : Nat) : Except Err (SubRecord × Nat) :=
  match readU64 data pos with
  | .error e => .error e
  | .ok (object_id, p1) => .ok (.stickyClass object_id, p1)

/-- `SubRecord::new`: tag dispatch; unknown tag is `UnknownSubTag`.
Note that tag `0x2c` is NOT dispatched: the decoder never constructs the
`heapDumpEnd` sub-record. -/
def subRecordNew (data : List Nat) (pos : Nat) : Except Err (SubRecord × Nat) :=
  match readU8 data pos with
  | .error e => .error e
  | .ok (tag, p1) =>
      match tag with
      | 0x01 => jniGlobal data p1
      | 0x02 => jniLocal data p1
      | 0x03 => javaFrame data p1
      | 0x05 => stickyClass data p1
      | 0x08 => threadObj data p1
      | 0x20 => classDump data p1
      | 0x21 => instanceDump data p1
      | 0x22 => objArrayDump data p1
      | 0x23 => primArrayDump data p1
      | _ => .error .unknownSubTag

/-! ## Record data model and decoding (`src/parser/mod.rs`) -/

/-- `Record` of `src/parser/mod.rs`; `Id` values are plain `Nat`s and
`content` is the string's byte sequence. -/
inductive Record where
  | utf8 (micros name_id : Nat) (content : List Nat)
  | loadClass (micros class_serial_number class_object_id
      stack_trace_serial_number class_name_id : Nat)
  | trace (micros stack_trace_serial_number thread_serial_number : Nat)
      (stack_frame_ids : List Nat)
  | frame (micros stack_frame_id method_name_id method_signature_id
      source_file_name_id class_serial_number : Nat) (line_number : Int)
  | heapDumpSegment (micros : Nat) (sub_records : List SubRecord)
  | heapDumpEnd (micros : Nat)
deriving DecidableEq, Repr

/-- The `matches!(record, Record::HeapDumpEnd { .. })` test of
`ParsedHeap::parse`. -/
def Record.isHeapDumpEnd : Record → Bool
  | .heapDumpEnd _ => true
  | _ => false

/-- Rust `usize` subtraction `a - b`: defined only when `b ≤ a`; on
underflow the program does not return (panic in debug builds; in release
builds the wrapped value `2^64 - (b - a)` makes the subsequent
`vec![0; n]` allocation abort).  `none` models that abnormal outcome. -/
def usizeSub (a b : Nat) : Option Nat :=
  if b ≤ a then some (a - b) else none

/-- `Record::utf8`: name id, then `bytes_remaining - 8` bytes of
modified UTF-8.  The subtraction is the unguarded `usize` subtraction of
the source (`src/parser/mod.rs` line 157). -/
def recUtf8 (data : List Nat) (micros bytesRemaining pos : Nat) :
    Except Err (Record × Nat) :=
  match readU64 data pos with
  | .error e => .error e
  | .ok (name_id, p1) =>
      match usizeSub bytesRemaining 8 with
      | none => .error .usizeUnderflow
      | some n =>
          match readUtf8 data n p1 with
          | .error e => .error e
          | .ok (content, p2) => .ok (.utf8 micros name_id content, p2)

/-- `Record::load_class`. -/
def recLoadClass (data : List Nat) (micros pos : Nat) :
    Except Err (Record × Nat) :=
  match readU32 data pos with
  | .error e => .error e
  | .ok (class_serial_number, p1) =>
  match readU64 data p1 with
  | .error e => .error e
  | .ok (class_object_id, p2) =>
  match readU32 data p2 with
  | .error e => .error e
  | .ok (stack_trace_serial_number, p3) =>
  match readU64 data p3 with
  | .error e => .error e
  | .ok (class_name_id, p4) =>
  .ok (.loadClass micros class_serial_number class_object_id
    stack_trace_serial_number class_name_id, p4)

/-- `Record::trace`. -/
def recTrace (data : List Nat) (micros pos : Nat) :
    Except Err (Record × Nat) :=
  match readU32 data pos with
  | .error e => .error e
  | .ok (stack_trace_serial_number, p1) =>
  match readU32 data p1 with
  | .error e => .error e
  | .ok (thread_serial_number, p2) =>
  match readU32 data p2 with
  | .error e => .error e
  | .ok (number_of_frames, p3) =>
  match readU64List data number_of_frames p3 with
  | .error e => .error e
  | .ok (stack_frame_ids, p4) =>
  .ok (.trace micros stack_trace_serial_number thread_serial_number
    stack_frame_ids, p4)

/-- `Record::frame`. -/
def recFrame (data : List Nat) (micros pos : Nat) :
    Except Err (Record × Nat) :=
  match readU64 data pos with
  | .error e => .error e
  | .ok (stack_frame_id, p1) =>
  match readU64 data p1 with
  | .error e => .error e
  | .ok (method_name_id, p2) =>
  match readU64 data p2 with
  | .error e => .error e
  | .ok (method_signature_id, p3) =>
  match readU64 data p3 with
  | .error e => .error e
  | .ok (source_file_name_id, p4) =>
  match readU32 data p4 with
  | .error e => .error e
  | .ok (class_serial_number, p5) =>
  match readI32 data p5 with
  | .error e => .error e
  | .ok (line_number, p6) =>
  .ok (.frame micros stack_frame_id method_name_id method_signature_id
    source_file_name_id class_serial_number line_number, p6)

/-- The sub-record loop of `Record::heap_dump_segment`: read one
sub-record; if it is the `HeapDumpEnd` sentinel push it and break;
otherwise push it and break only when exactly `bytesRemaining` bytes have
been consumed since `startPos`.  There is no overrun check.  `fuel`
bounds the iteration count; the wrapper passes `data.length + 1`, which
is sufficient because every sub-record read consumes at least one byte
(`segLoopF_fuel_mono` below makes the fuel irrelevant beyond that). -/
def segLoopF (data : List Nat) (startPos bytesRemaining : Nat) :
    Nat → Nat → Except Err (List SubRecord × Nat)
  | 0, _ => .error .io
  | fuel + 1, pos =>
      match subRecordNew data pos with
      | .error e => .error e
      | .ok (sr, p1) =>
          if sr.isHeapDumpEnd then .ok ([sr], p1)
          else if p1 - startPos = bytesRemaining then .ok ([sr], p1)
          else
            match segLoopF data startPos bytesRemaining fuel p1 with
            | .error e => .error e
            | .ok (rest, p2) => .ok (sr :: rest, p2)

/-- `Record::heap_dump_segment`: `start_position = stream_position()`,
then the sub-record loop. -/
def recHeapDumpSegment (data : List Nat) (micros bytesRemaining pos : Nat) :
    Except Err (Record × Nat) :=
  match segLoopF data pos bytesRemaining (data.length + 1) pos with
  | .error e => .error e
  | .ok (sub_records, p1) => .ok (.heapDumpSegment micros sub_records, p1)

/-- `Record::parse`: 9-byte prefix (tag, micros, bytes_remaining), then
tag dispatch; unknown tag is `BadTag`. -/
def recordParse (data : List Nat) (pos : Nat) : Except Err (Record × Nat) :=
  match readU8 data pos with
  | .error e => .error e
  | .ok (tag, p1) =>
  match readU32 data p1 with
  | .error e => .error e
  | .ok (micros, p2) =>
  match readU32 data p2 with
  | .error e => .error e
  | .ok (bytesRemaining, p3) =>
      match tag with
      | 0x01 => recUtf8 data micros bytesRemaining p3
      | 0x02 => recLoadClass data micros p3
      | 0x04 => recFrame data micros p3
      | 0x05 => recTrace data micros p3
      | 0x1c => recHeapDumpSegment data micros bytesRemaining p3
      | 0x2c => .ok (.heapDumpEnd micros, p3)
      | _ => .error .badTag

/-! ## File decoding (`ParsedHeap::parse` of `src/parser/mod.rs`) -/

/-- The record loop of `ParsedHeap::parse`: read records, stopping after
pushing a `HeapDumpEnd` record.  `fuel` bounds the iteration count; the
wrapper passes `data.length + 1`, sufficient because every record read
consumes at least one byte. -/
def parseLoopF (data : List Nat) : Nat → Nat → Except Err (List Record × Nat)
  | 0, _ => .error .io
  | fuel + 1, pos =>
      match recordParse data pos with
      | .error e => .error e
      | .ok (r, p1) =>
          if r.isHeapDumpEnd then .ok ([r], p1)
          else
            match parseLoopF data fuel p1 with
            | .error e => .error e
            | .ok (rest, p2) => .ok (r :: rest, p2)

/-- The supported version banner `"JAVA PROFILE 1.0.2"` as bytes. -/
def supportedBanner : List Nat :=
  [0x4A, 0x41, 0x56, 0x41, 0x20, 0x50, 0x52, 0x4F, 0x46, 0x49,
   0x4C, 0x45, 0x20, 0x31, 0x2E, 0x30, 0x2E, 0x32]

/-- `Version` of `src/parser/mod.rs`. -/
inductive Version where
  | javaProfile102
deriving DecidableEq, Repr

/-- `Version::new`: only the supported banner is accepted
(`UnsupportedVersion` otherwise). -/
def versionNew (banner : List Nat) : Except Err Version :=
  if banner = supportedBanner then .ok .javaProfile102
  else .error .unsupportedVersion

/-- `u64` reinterpreted as `i64` (`read_u64(...)? as i64`). -/
def u64AsI64 (v : Nat) : Int :=
  if v < 2 ^ 63 then (v : Int) else (v : Int) - 2 ^ 64

/-- Modelled from the behaviour of chrono's
`DateTime::from_timestamp_millis` (an external crate): the conversion
succeeds exactly when the millisecond count lies in chrono's
representable range. -/
def timestampMillisValid (millis : Int) : Bool :=
  -8334601228800000 ≤ millis && millis ≤ 8210266876799999

/-- The decoded heap: `ParsedHeap` of `src/parser/mod.rs`, with the
timestamp kept as its validated millisecond count. -/
structure ParsedHeap where
  version : Version
  timestampMillis : Int
  records : List Record
deriving DecidableEq, Repr

/-- `ParsedHeap::parse` on in-memory contents: 18-byte banner via
`read_utf8`, one skipped byte, identifier size (must be 8), timestamp,
then the record loop; the banner is validated (`Version::new`) only
after the records have been read, as in the source. -/
def parseHeap (data : List Nat) : Except Err ParsedHeap :=
  match readUtf8 data 18 0 with
  | .error e => .error e
  | .ok (banner, p1) =>
  match readU8 data p1 with
  | .error e => .error e
  | .ok (_, p2) =>
  match readU32 data p2 with
  | .error e => .error e
  | .ok (identifierSize, p3) =>
  if identifierSize ≠ 8 then .error .unsupportedIdentifierSize
  else
    match readU64 data p3 with
    | .error e => .error e
    | .ok (tsRaw, p4) =>
    if timestampMillisValid (u64AsI64 tsRaw) then
      match parseLoopF data (data.length + 1) p4 with
      | .error e => .error e
      | .ok (records, _) =>
          match versionNew banner with
          | .error e => .error e
          | .ok version => .ok ⟨version, u64AsI64 tsRaw, records⟩
    else .error .invalidTimestamp

/-! ## Resolver (`src/analzyer/mod.rs`) -/

/-- Insert-with-overwrite into an association list, modelling
`HashMap::insert` (later writes win; lookup finds the newest entry). -/
def mapInsert {α : Type} (k : Nat) (v : α) (m : List (Nat × α)) :
    List (Nat × α) :=
  (k, v) :: m

/-- `HashMap::get`, modelling lookup of the most recent insertion. -/
def mapFind {α : Type} (k : Nat) : List (Nat × α) → Option α
  | [] => none
  | (k', v) :: rest => if k' = k then some v else mapFind k rest

/-- `Class` of `src/analzyer/mod.rs`. -/
structure AClass where
  id : Nat
  name : List Nat
deriving DecidableEq, Repr

/-- `Instance` of `src/analzyer/mod.rs`. -/
structure AInstance where
  id : Nat
  cls : AClass
deriving DecidableEq, Repr

/-- `Frame` of `src/analzyer/mod.rs` (the resolved frame). -/
structure AFrame where
  id : Nat
  method_name : List Nat
  method_signature : List Nat
  source_file_name : List Nat
  class_serial_number : Nat
  line_number : Int
deriving DecidableEq, Repr

/-- Pass 1 of `AnalyzedHeap::analyze`: for every `Utf8` record insert
`name_id → content` into `strings` (later duplicates overwrite). -/
def stringsPass (records : List Record) : List (Nat × List Nat) :=
  records.foldl
    (fun m r =>
      match r with
      | .utf8 _ name_id content => mapInsert name_id content m
      | _ => m)
    []

/-- Mutable state of pass 2 of `AnalyzedHeap::analyze`. -/
structure Pass2State where
  frames : List AFrame
  classes : List (Nat × AClass)
  instances : List (Nat × AInstance)
deriving DecidableEq, Repr

/-- The inner sub-record loop of the `HeapDumpSegment` arm of pass 2:
each `InstanceDump` looks up its `class_object_id` in `classes`
(missing is `DanglingClassRef`, "class not found") and is inserted into
`instances`; all other sub-record variants are ignored. -/
def instancesFold (classes : List (Nat × AClass)) :
    List (Nat × AInstance) → List SubRecord →
    Except Err (List (Nat × AInstance))
  | instances, [] => .ok instances
  | instances, .instanceDump object_id _ class_object_id _ _ :: rest =>
      match mapFind class_object_id classes with
      | some c =>
          instancesFold classes
            (mapInsert object_id ⟨object_id, c⟩ instances) rest
      | none => .error .danglingClassRef
  | instances, _ :: rest => instancesFold classes instances rest

/-- One record of pass 2 of `AnalyzedHeap::analyze`: `Frame` resolves its
three string ids against `strings` (missing is `DanglingStringRef`),
`LoadClass` resolves its class name (missing is `DanglingStringRef`) and
is inserted into `classes`, `HeapDumpSegment` runs `instancesFold`;
everything else is ignored. -/
def pass2Step (strings : List (Nat × List Nat)) (st : Pass2State) :
    Record → Except Err Pass2State
  | .frame _ stack_frame_id method_name_id method_signature_id
      source_file_name_id class_serial_number line_number =>
      match mapFind method_name_id strings with
      | none => .error .danglingStringRef
      | some mn =>
          match mapFind method_signature_id strings with
          | none => .error .danglingStringRef
          | some ms =>
              match mapFind source_file_name_id strings with
              | none => .error .danglingStringRef
              | some sf =>
                  .ok { st with
                    frames := st.frames ++
                      [⟨stack_frame_id, mn, ms, sf, class_serial_number,
                        line_number⟩] }
  | .loadClass _ _ class_object_id _ class_name_id =>
      match mapFind class_name_id strings with
      | none => .error .danglingStringRef
      | some name =>
          .ok { st with
            classes :=
              mapInsert class_object_id ⟨class_object_id, name⟩ st.classes }
  | .heapDumpSegment _ sub_records =>
      match instancesFold st.classes st.instances sub_records with
      | .ok instances => .ok { st with instances := instances }
      | .error e => .error e
  | _ => .ok st

/-- Pass 2 of `AnalyzedHeap::analyze`: the `for record in records` loop,
threading the accumulated state and propagating the first error. -/
def pass2 (strings : List (Nat × List Nat)) :
    Pass2State → List Record → Except Err Pass2State
  | st, [] => .ok st
  | st, r :: rest =>
      match pass2Step strings st r with
      | .ok st' => pass2 strings st' rest
      | .error e => .error e

/-- `AnalyzedHeap` of `src/analzyer/mod.rs`. -/
structure AnalyzedHeap where
  strings : List (Nat × List Nat)
  classes : List (Nat × AClass)
  frames : List AFrame
  instances : List (Nat × AInstance)
deriving DecidableEq, Repr

/-- `AnalyzedHeap::analyze`, over the decoded record list (the source
consumes `parsed_heap.records`). -/
def analyzeRecords (records : List Record) : Except Err AnalyzedHeap :=
  match pass2 (stringsPass records) ⟨[], [], []⟩ records with
  | .ok st =>
      .ok ⟨stringsPass records, st.classes, st.frames, st.instances⟩
  | .error e => .error e

/-- `AnalyzedHeap::analyze` on a `ParsedHeap`. -/
def analyze (heap : ParsedHeap) : Except Err AnalyzedHeap :=
  analyzeRecords heap.records

/-- Whether a record is a `Frame` record. -/
def Record.isFrame : Record → Bool
  | .frame _ _ _ _ _ _ _ => true
  | _ => false

/-- The `Frame` records of a record list, in order. -/
def frameRecords (records : List Record) : List Record :=
  records.filter Record.isFrame

/-- A resolved frame corresponds to its originating `Frame` record: the
id, serial number and line number are copied, and the three strings are
exactly the string-table entries of the record's three ids. -/
def frameResolved (strings : List (Nat × List Nat)) :
    Record → AFrame → Prop
  | .frame _ sfid mn ms sf csn ln, f =>
      f.id = sfid ∧
      mapFind mn strings = some f.method_name ∧
      mapFind ms strings = some f.method_signature ∧
      mapFind sf strings = some f.source_file_name ∧
      f.class_serial_number = csn ∧
      f.line_number = ln
  | _, _ => False

/-- The minimal valid dump of §8 of the spec: banner, NUL, id-size 8,
timestamp 0, and a single `HeapDumpEnd` record. -/
def minimalDump : List Nat :=
  supportedBanner ++ [0x00] ++ [0, 0, 0, 8] ++ [0, 0, 0, 0, 0, 0, 0, 0] ++
    [0x2C, 0, 0, 0, 0, 0, 0, 0, 0]

/-- A computation whose error, if any, is not `SegmentOverrun`; used to
state that the decoder can never produce that error (the source contains
no overrun check). -/
def CleanErr {α : Type} (x : Except Err α) : Prop :=
  ∀ e, x = .error e → e ≠ .segmentOverrun

/-! ## Basic lemmas about the byte readers -/

theorem exc_bind_ok {α β : Type} {x : Except Err α} {f : α → Except Err β}
    {b : β} (h : (x >>= f) = .ok b) : ∃ a, x = .ok a ∧ f a = .ok b := by
  cases x with
  | ok a => exact ⟨a, rfl, h⟩
  | error e => exact absurd h (by intro hh; cases hh)

theorem exc_bind_error {α β : Type} {x : Except Err α} {f : α → Except Err β}
    {e : Err} (h : (x >>= f) = .error e) :
    x = .error e ∨ ∃ a, x = .ok a ∧ f a = .error e := by
  cases x with
  | ok a => exact .inr ⟨a, rfl, h⟩
  | error e' =>
      left
      cases h
      rfl

theorem exc_pure_bind {α β : Type} (a : α) (f : α → Except Err β) :
    ((Except.ok a : Except Err α) >>= f) = f a := rfl

theorem readBytes_ok {data : List Nat} {n pos : Nat} {bs : List Nat} {p' : Nat}
    (h : readBytes data n pos = .ok (bs, p')) :
    p' = pos + n ∧ pos + n ≤ data.length ∧ bs = (data.drop pos).take n := by
  unfold readBytes at h
  split at h
  · cases h
    exact ⟨rfl, by assumption, rfl⟩
  · cases h

theorem readBytes_extend {data extra : List Nat} {n pos : Nat}
    {v : List Nat × Nat} (h : readBytes data n pos = .ok v) :
    readBytes (data ++ extra) n pos = .ok v := by
  obtain ⟨bs, p'⟩ := v
  obtain ⟨hp, hle, hbs⟩ := readBytes_ok h
  unfold readBytes
  rw [if_pos (by simp; omega)]
  subst hp hbs
  congr 2
  rw [List.drop_append_of_le_length (by omega),
    List.take_append_of_le_length (by simp; omega)]

theorem readBE_ok {data : List Nat} {k pos v p' : Nat}
    (h : readBE data k pos = .ok (v, p')) :
    p' = pos + k ∧ pos + k ≤ data.length := by
  unfold readBE at h
  split at h
  · rename_i bs p heq
    cases h
    obtain ⟨hp, hle, _⟩ := readBytes_ok heq
    exact ⟨hp, hle⟩
  · cases h

theorem readBE_extend {data extra : List Nat} {k pos : Nat} {v : Nat × Nat}
    (h : readBE data k pos = .ok v) : readBE (data ++ extra) k pos = .ok v := by
  unfold readBE at h ⊢
  split at h
  · rename_i bs p heq
    rw [readBytes_extend heq]
    exact h
  · cases h

theorem readU8_ok {data : List Nat} {pos v p' : Nat}
    (h : readU8 data pos = .ok (v, p')) :
    p' = pos + 1 ∧ pos + 1 ≤ data.length := readBE_ok h

theorem readU16_ok {data : List Nat} {pos v p' : Nat}
    (h : readU16 data pos = .ok (v, p')) :
    p' = pos + 2 ∧ pos + 2 ≤ data.length := readBE_ok h

theorem readU32_ok {data : List Nat} {pos v p' : Nat}
    (h : readU32 data pos = .ok (v, p')) :
    p' = pos + 4 ∧ pos + 4 ≤ data.length := readBE_ok h

theorem readU64_ok {data : List Nat} {pos v p' : Nat}
    (h : readU64 data pos = .ok (v, p')) :
    p' = pos + 8 ∧ pos + 8 ≤ data.length := readBE_ok h

theorem readU8_extend {data extra : List Nat} {pos : Nat} {v : Nat × Nat}
    (h : readU8 data pos = .ok v) : readU8 (data ++ extra) pos = .ok v :=
  readBE_extend h

theorem readU16_extend {data extra : List Nat} {pos : Nat} {v : Nat × Nat}
    (h : readU16 data pos = .ok v) : readU16 (data ++ extra) pos = .ok v :=
  readBE_extend h

theorem readU32_extend {data extra : List Nat} {pos : Nat} {v : Nat × Nat}
    (h : readU32 data pos = .ok v) : readU32 (data ++ extra) pos = .ok v :=
  readBE_extend h

theorem readU64_extend {data extra : List Nat} {pos : Nat} {v : Nat × Nat}
    (h : readU64 data pos = .ok v) : readU64 (data ++ extra) pos = .ok v :=
  readBE_extend h

theorem readI32_ok {data : List Nat} {pos : Nat} {v : Int} {p' : Nat}
    (h : readI32 data pos = .ok (v, p')) :
    p' = pos + 4 ∧ pos + 4 ≤ data.length := by
  unfold readI32 at h
  split at h
  · rename_i w p heq
    cases h
    exact readBE_ok heq
  · cases h

theorem readI32_extend {data extra : List Nat} {pos : Nat} {v : Int × Nat}
    (h : readI32 data pos = .ok v) : readI32 (data ++ extra) pos = .ok v := by
  unfold readI32 at h ⊢
  split at h
  · rename_i w p heq
    rw [readBE_extend heq]
    exact h
  · cases h

theorem readUtf8_ok {data : List Nat} {n pos : Nat} {s : List Nat} {p' : Nat}
    (h : readUtf8 data n pos = .ok (s, p')) :
    p' = pos + n ∧ pos + n ≤ data.length := by
  unfold readUtf8 at h
  split at h
  · rename_i buf p heq
    split at h
    · cases h
      obtain ⟨hp, hle, _⟩ := readBytes_ok heq
      exact ⟨hp, hle⟩
    · cases h
  · cases h

theorem readUtf8_extend {data extra : List Nat} {n pos : Nat}
    {v : List Nat × Nat} (h : readUtf8 data n pos = .ok v) :
    readUtf8 (data ++ extra) n pos = .ok v := by
  unfold readUtf8 at h ⊢
  split at h
  · rename_i buf p heq
    rw [readBytes_extend heq]
    exact h
  · cases h

/-! ## `CleanErr` combinators and reader instances -/

theorem cleanErr_ok {α : Type} (v : α) : CleanErr (.ok v : Except Err α) :=
  fun _ h => by cases h

theorem cleanErr_error {α : Type} {e₀ : Err} (hne : e₀ ≠ .segmentOverrun) :
    CleanErr (.error e₀ : Except Err α) :=
  fun _ h => by cases h; exact hne

theorem cleanErr_bind {α β : Type} {x : Except Err α}
    {f : α → Except Err β} (hx : CleanErr x) (hf : ∀ a, CleanErr (f a)) :
    CleanErr (x >>= f) := by
  intro e h
  rcases exc_bind_error h with h | ⟨a, _, h⟩
  · exact hx e h
  · exact hf a e h

theorem readBytes_clean {data : List Nat} {n pos : Nat} :
    CleanErr (readBytes data n pos) := by
  unfold readBytes
  split
  · exact cleanErr_ok _
  · exact cleanErr_error (by decide)

theorem readBE_clean {data : List Nat} {k pos : Nat} :
    CleanErr (readBE data k pos) := by
  unfold readBE
  split
  · exact cleanErr_ok _
  · rename_i e heq
    exact cleanErr_error (readBytes_clean e heq)

theorem readU8_clean {data : List Nat} {pos : Nat} :
    CleanErr (readU8 data pos) := readBE_clean

theorem readU16_clean {data : List Nat} {pos : Nat} :
    CleanErr (readU16 data pos) := readBE_clean

theorem readU32_clean {data : List Nat} {pos : Nat} :
    CleanErr (readU32 data pos) := readBE_clean

theorem readU64_clean {data : List Nat} {pos : Nat} :
    CleanErr (readU64 data pos) := readBE_clean

theorem readI32_clean {data : List Nat} {pos : Nat} :
    CleanErr (readI32 data pos) := by
  unfold readI32
  split
  · exact cleanErr_ok _
  · rename_i e heq
    exact cleanErr_error (readBE_clean e heq)

theorem readUtf8_clean {data : List Nat} {n pos : Nat} :
    CleanErr (readUtf8 data n pos) := by
  unfold readUtf8
  split
  · split
    · exact cleanErr_ok _
    · exact cleanErr_error (by decide)
  · rename_i e heq
    exact cleanErr_error (readBytes_clean e heq)

/-! ## Lemmas about the sub-record decoder -/

theorem fieldNew_le {data : List Nat} {pos : Nat} {f : Field} {p' : Nat}
    (h : fieldNew data pos = .ok (f, p')) : pos ≤ p' := by
  unfold fieldNew at h
  split at h
  · cases h
  · rename_i nid p1 h1
    split at h
    · cases h
    · rename_i typ p2 h2
      have e1 := (readU64_ok h1).1
      have e2 := (readU8_ok h2).1
      split at h <;>
        first
          | cases h
          | (split at h
             · rename_i w p3 h3
               cases h
               first
                 | (have e3 := (readU64_ok h3).1; omega)
                 | (have e3 := (readU8_ok h3).1; omega)
                 | (have e3 := (readU16_ok h3).1; omega)
                 | (have e3 := (readU32_ok h3).1; omega)
             · cases h)

theorem fieldNew_clean {data : List Nat} {pos : Nat} :
    CleanErr (fieldNew data pos) := by
  intro e h
  unfold fieldNew at h
  split at h
  · rename_i e0 h1
    cases h
    exact readU64_clean _ h1
  · rename_i nid p1 h1
    split at h
    · rename_i e0 h2
      cases h
      exact readU8_clean _ h2
    · rename_i typ p2 h2
      split at h <;>
        first
          | (cases h; decide)
          | (split at h
             · cases h
             · rename_i e0 h3
               cases h
               first
                 | exact readU64_clean _ h3
                 | exact readU8_clean _ h3
                 | exact readU16_clean _ h3
                 | exact readU32_clean _ h3)

theorem fieldNew_extend {data extra : List Nat} {pos : Nat}
    {v : Field × Nat} (h : fieldNew data pos = .ok v) :
    fieldNew (data ++ extra) pos = .ok v := by
  unfold fieldNew at h ⊢
  split at h
  · cases h
  · rename_i nid p1 h1
    split at h
    · cases h
    · rename_i typ p2 h2
      split at h <;>
        first
          | cases h
          | (split at h
             · rename_i w p3 h3
               first
                 | (simp only [readU64_extend h1, readU8_extend h2,
                      readU64_extend h3]
                    exact h)
                 | (simp only [readU64_extend h1, readU8_extend h2,
                      readU8_extend h3]
                    exact h)
                 | (simp only [readU64_extend h1, readU8_extend h2,
                      readU16_extend h3]
                    exact h)
                 | (simp only [readU64_extend h1, readU8_extend h2,
                      readU32_extend h3]
                    exact h)
             · cases h)

theorem readStaticFields_le {data : List Nat} :
    ∀ {n pos : Nat} {fs : List Field} {p' : Nat},
      readStaticFields data n pos = .ok (fs, p') → pos ≤ p' := by
  intro n
  induction n with
  | zero =>
      intro pos fs p' h
      simp only [readStaticFields] at h
      cases h
      exact Nat.le_refl _
  | succ n ih =>
      intro pos fs p' h
      simp only [readStaticFields] at h
      split at h
      · cases h
      rename_i f p1 h1
      split at h
      · cases h
      rename_i fs2 p2 h2
      cases h
      exact Nat.le_trans (fieldNew_le h1) (ih h2)

theorem readStaticFields_length {data : List Nat} :
    ∀ {n pos : Nat} {fs : List Field} {p' : Nat},
      readStaticFields data n pos = .ok (fs, p') → fs.length = n := by
  intro n
  induction n with
  | zero =>
      intro pos fs p' h
      simp only [readStaticFields] at h
      cases h
      rfl
  | succ n ih =>
      intro pos fs p' h
      simp only [readStaticFields] at h
      split at h
      · cases h
      rename_i f p1 h1
      split at h
      · cases h
      rename_i fs2 p2 h2
      cases h
      simp [ih h2]

theorem readStaticFields_clean {data : List Nat} :
    ∀ {n pos : Nat}, CleanErr (readStaticFields data n pos) := by
  intro n
  induction n with
  | zero =>
      intro pos e h
      simp only [readStaticFields] at h
      cases h
  | succ n ih =>
      intro pos e h
      simp only [readStaticFields] at h
      split at h
      · rename_i e0 h1
        cases h
        exact fieldNew_clean _ h1
      rename_i f p1 h1
      split at h
      · rename_i e0 h2
        cases h
        exact ih _ h2
      cases h

theorem readStaticFields_extend {data extra : List Nat} :
    ∀ {n pos : Nat} {v : List Field × Nat},
      readStaticFields data n pos = .ok v →
      readStaticFields (data ++ extra) n pos = .ok v := by
  intro n
  induction n with
  | zero =>
      intro pos v h
      simpa only [readStaticFields] using h
  | succ n ih =>
      intro pos v h
      simp only [readStaticFields] at h ⊢
      split at h
      · cases h
      rename_i f p1 h1
      split at h
      · cases h
      rename_i fs p2 h2
      simp only [fieldNew_extend h1, ih h2]
      exact h

theorem readFieldDescriptors_le {data : List Nat} :
    ∀ {n pos : Nat} {ds : List FieldDescriptor} {p' : Nat},
      readFieldDescriptors data n pos = .ok (ds, p') → pos ≤ p' := by
  intro n
  induction n with
  | zero =>
      intro pos ds p' h
      simp only [readFieldDescriptors] at h
      cases h
      exact Nat.le_refl _
  | succ n ih =>
      intro pos ds p' h
      simp only [readFieldDescriptors] at h
      split at h
      · cases h
      rename_i nid p1 h1
      split at h
      · cases h
      rename_i typ p2 h2
      split at h
      · cases h
      rename_i ds2 p3 h3
      cases h
      have e1 := (readU64_ok h1).1
      have e2 := (readU8_ok h2).1
      have e3 := ih h3
      omega

theorem readFieldDescriptors_length {data : List Nat} :
    ∀ {n pos : Nat} {ds : List FieldDescriptor} {p' : Nat},
      readFieldDescriptors data n pos = .ok (ds, p') → ds.length = n := by
  intro n
  induction n with
  | zero =>
      intro pos ds p' h
      simp only [readFieldDescriptors] at h
      cases h
      rfl
  | succ n ih =>
      intro pos ds p' h
      simp only [readFieldDescriptors] at h
      split at h
      · cases h
      rename_i nid p1 h1
      split at h
      · cases h
      rename_i typ p2 h2
      split at h
      · cases h
      rename_i ds2 p3 h3
      cases h
      simp [ih h3]

theorem readFieldDescriptors_clean {data : List Nat} :
    ∀ {n pos : Nat}, CleanErr (readFieldDescriptors data n pos) := by
  intro n
  induction n with
  | zero =>
      intro pos e h
      simp only [readFieldDescriptors] at h
      cases h
  | succ n ih =>
      intro pos e h
      simp only [readFieldDescriptors] at h
      split at h
      · rename_i e0 h1
        cases h
        exact readU64_clean _ h1
      rename_i nid p1 h1
      split at h
      · rename_i e0 h2
        cases h
        exact readU8_clean _ h2
      rename_i typ p2 h2
      split at h
      · rename_i e0 h3
        cases h
        exact ih _ h3
      cases h

theorem readFieldDescriptors_extend {data extra : List Nat} :
    ∀ {n pos : Nat} {v : List FieldDescriptor × Nat},
      readFieldDescriptors data n pos = .ok v →
      readFieldDescriptors (data ++ extra) n pos = .ok v := by
  intro n
  induction n with
  | zero =>
      intro pos v h
      simpa only [readFieldDescriptors] using h
  | succ n ih =>
      intro pos v h
      simp only [readFieldDescriptors] at h ⊢
      split at h
      · cases h
      rename_i nid p1 h1
      split at h
      · cases h
      rename_i typ p2 h2
      split at h
      · cases h
      rename_i ds p3 h3
      simp only [readU64_extend h1, readU8_extend h2, ih h3]
      exact h

theorem readU64List_le {data : List Nat} :
    ∀ {n pos : Nat} {vs : List Nat} {p' : Nat},
      readU64List data n pos = .ok (vs, p') → pos ≤ p' := by
  intro n
  induction n with
  | zero =>
      intro pos vs p' h
      simp only [readU64List] at h
      cases h
      exact Nat.le_refl _
  | succ n ih =>
      intro pos vs p' h
      simp only [readU64List] at h
      split at h
      · cases h
      rename_i v p1 h1
      split at h
      · cases h
      rename_i vs2 p2 h2
      cases h
      have e1 := (readU64_ok h1).1
      have e2 := ih h2
      omega

theorem readU64List_clean {data : List Nat} :
    ∀ {n pos : Nat}, CleanErr (readU64List data n pos) := by
  intro n
  induction n with
  | zero =>
      intro pos e h
      simp only [readU64List] at h
      cases h
  | succ n ih =>
      intro pos e h
      simp only [readU64List] at h
      split at h
      · rename_i e0 h1
        cases h
        exact readU64_clean _ h1
      rename_i v p1 h1
      split at h
      · rename_i e0 h2
        cases h
        exact ih _ h2
      cases h

theorem readU64List_extend {data extra : List Nat} :
    ∀ {n pos : Nat} {v : List Nat × Nat},
      readU64List data n pos = .ok v →
      readU64List (data ++ extra) n pos = .ok v := by
  intro n
  induction n with
  | zero =>
      intro pos v h
      simpa only [readU64List] using h
  | succ n ih =>
      intro pos v h
      simp only [readU64List] at h ⊢
      split at h
      · cases h
      rename_i w p1 h1
      split at h
      · cases h
      rename_i ws p2 h2
      simp only [readU64_extend h1, ih h2]
      exact h

theorem primElement_le {data : List Nat} {typ pos : Nat}
    {el : PrimArrayElement} {p' : Nat}
    (h : primElement data typ pos = .ok (el, p')) : pos ≤ p' := by
  unfold primElement at h
  split at h <;>
    first
      | cases h
      | (split at h
         · rename_i w p1 h1
           cases h
           first
             | (have e2 := (readU8_ok h1).1; omega)
             | (have e2 := (readU16_ok h1).1; omega)
             | (have e2 := (readU32_ok h1).1; omega)
             | (have e2 := (readU64_ok h1).1; omega)
         · cases h)

theorem primElement_clean {data : List Nat} {typ pos : Nat} :
    CleanErr (primElement data typ pos) := by
  intro e h
  unfold primElement at h
  split at h <;>
    first
      | (cases h; decide)
      | (split at h
         · cases h
         · rename_i e0 h1
           cases h
           first
             | exact readU8_clean _ h1
             | exact readU16_clean _ h1
             | exact readU32_clean _ h1
             | exact readU64_clean _ h1)

theorem primElement_extend {data extra : List Nat} {typ pos : Nat}
    {v : PrimArrayElement × Nat} (h : primElement data typ pos = .ok v) :
    primElement (data ++ extra) typ pos = .ok v := by
  unfold primElement at h ⊢
  split at h <;>
    first
      | cases h
      | (split at h
         · rename_i w p1 h1
           first
             | (simp only [readU8_extend h1]; exact h)
             | (simp only [readU16_extend h1]; exact h)
             | (simp only [readU32_extend h1]; exact h)
             | (simp only [readU64_extend h1]; exact h)
         · cases h)

theorem readPrimElements_le {data : List Nat} {typ : Nat} :
    ∀ {n pos : Nat} {els : List PrimArrayElement} {p' : Nat},
      readPrimElements data typ n pos = .ok (els, p') → pos ≤ p' := by
  intro n
  induction n with
  | zero =>
      intro pos els p' h
      simp only [readPrimElements] at h
      cases h
      exact Nat.le_refl _
  | succ n ih =>
      intro pos els p' h
      simp only [readPrimElements] at h
      split at h
      · cases h
      rename_i el p1 h1
      split at h
      · cases h
      rename_i els2 p2 h2
      cases h
      exact Nat.le_trans (primElement_le h1) (ih h2)

theorem readPrimElements_clean {data : List Nat} {typ : Nat} :
    ∀ {n pos : Nat}, CleanErr (readPrimElements data typ n pos) := by
  intro n
  induction n with
  | zero =>
      intro pos e h
      simp only [readPrimElements] at h
      cases h
  | succ n ih =>
      intro pos e h
      simp only [readPrimElements] at h
      split at h
      · rename_i e0 h1
        cases h
        exact primElement_clean _ h1
      rename_i el p1 h1
      split at h
      · rename_i e0 h2
        cases h
        exact ih _ h2
      cases h

theorem readPrimElements_extend {data extra : List Nat} {typ : Nat} :
    ∀ {n pos : Nat} {v : List PrimArrayElement × Nat},
      readPrimElements data typ n pos = .ok v →
      readPrimElements (data ++ extra) typ n pos = .ok v := by
  intro n
  induction n with
  | zero =>
      intro pos v h
      simpa only [readPrimElements] using h
  | succ n ih =>
      intro pos v h
      simp only [readPrimElements] at h ⊢
      split at h
      · cases h
      rename_i el p1 h1
      split at h
      · cases h
      rename_i els p2 h2
      simp only [primElement_extend h1, ih h2]
      exact h

theorem classDump_ok {data : List Nat} {pos : Nat} {sr : SubRecord} {p' : Nat}
    (h : classDump data pos = .ok (sr, p')) :
    pos ≤ p' ∧ sr.isHeapDumpEnd = false := by
  unfold classDump at h
  split at h
  · cases h
  rename_i a1 p1 h1
  split at h
  · cases h
  rename_i a2 p2 h2
  split at h
  · cases h
  rename_i a3 p3 h3
  split at h
  · cases h
  rename_i a4 p4 h4
  split at h
  · cases h
  rename_i a5 p5 h5
  split at h
  · cases h
  rename_i a6 p6 h6
  split at h
  · cases h
  rename_i a7 p7 h7
  split at h
  · cases h
  rename_i a8 p8 h8
  split at h
  · cases h
  rename_i a9 p9 h9
  split at h
  · cases h
  rename_i a10 p10 h10
  split at h
  · cases h
  rename_i a11 p11 h11
  split at h
  · cases h
  rename_i a12 p12 h12
  split at h
  · cases h
  rename_i a13 p13 h13
  split at h
  · cases h
  rename_i a14 p14 h14
  cases h
  refine ⟨?_, rfl⟩
  have e1 := (readU64_ok h1).1
  have e2 := (readU32_ok h2).1
  have e3 := (readU64_ok h3).1
  have e4 := (readU64_ok h4).1
  have e5 := (readU64_ok h5).1
  have e6 := (readU64_ok h6).1
  have e7 := (readU64_ok h7).1
  have e8 := (readU64_ok h8).1
  have e9 := (readU32_ok h9).1
  have e10 := (readU16_ok h10).1
  have e11 := (readU16_ok h11).1
  have e12 := readStaticFields_le h12
  have e13 := (readU16_ok h13).1
  have e14 := readFieldDescriptors_le h14
  omega

theorem classDump_clean {data : List Nat} {pos : Nat} :
    CleanErr (classDump data pos) := by
  intro e h
  unfold classDump at h
  split at h
  · rename_i e0 h1
    cases h
    exact readU64_clean _ h1
  rename_i a1 p1 h1
  split at h
  · rename_i e0 h2
    cases h
    exact readU32_clean _ h2
  rename_i a2 p2 h2
  split at h
  · rename_i e0 h3
    cases h
    exact readU64_clean _ h3
  rename_i a3 p3 h3
  split at h
  · rename_i e0 h4
    cases h
    exact readU64_clean _ h4
  rename_i a4 p4 h4
  split at h
  · rename_i e0 h5
    cases h
    exact readU64_clean _ h5
  rename_i a5 p5 h5
  split at h
  · rename_i e0 h6
    cases h
    exact readU64_clean _ h6
  rename_i a6 p6 h6
  split at h
  · rename_i e0 h7
    cases h
    exact readU64_clean _ h7
  rename_i a7 p7 h7
  split at h
  · rename_i e0 h8
    cases h
    exact readU64_clean _ h8
  rename_i a8 p8 h8
  split at h
  · rename_i e0 h9
    cases h
    exact readU32_clean _ h9
  rename_i a9 p9 h9
  split at h
  · rename_i e0 h10
    cases h
    exact readU16_clean _ h10
  rename_i a10 p10 h10
  split at h
  · rename_i e0 h11
    cases h
    exact readU16_clean _ h11
  rename_i a11 p11 h11
  split at h
  · rename_i e0 h12
    cases h
    exact readStaticFields_clean _ h12
  rename_i a12 p12 h12
  split at h
  · rename_i e0 h13
    cases h
    exact readU16_clean _ h13
  rename_i a13 p13 h13
  split at h
  · rename_i e0 h14
    cases h
    exact readFieldDescriptors_clean _ h14
  rename_i a14 p14 h14
  cases h

theorem classDump_extend {data extra : List Nat} {pos : Nat}
    {v : SubRecord × Nat} (h : classDump data pos = .ok v) :
    classDump (data ++ extra) pos = .ok v := by
  unfold classDump at h ⊢
  split at h
  · cases h
  rename_i a1 p1 h1
  split at h
  · cases h
  rename_i a2 p2 h2
  split at h
  · cases h
  rename_i a3 p3 h3
  split at h
  · cases h
  rename_i a4 p4 h4
  split at h
  · cases h
  rename_i a5 p5 h5
  split at h
  · cases h
  rename_i a6 p6 h6
  split at h
  · cases h
  rename_i a7 p7 h7
  split at h
  · cases h
  rename_i a8 p8 h8
  split at h
  · cases h
  rename_i a9 p9 h9
  split at h
  · cases h
  rename_i a10 p10 h10
  split at h
  · cases h
  rename_i a11 p11 h11
  split at h
  · cases h
  rename_i a12 p12 h12
  split at h
  · cases h
  rename_i a13 p13 h13
  split at h
  · cases h
  rename_i a14 p14 h14
  simp only [readU64_extend h1, readU32_extend h2, readU64_extend h3,
    readU64_extend h4, readU64_extend h5, readU64_extend h6,
    readU64_extend h7, readU64_extend h8, readU32_extend h9,
    readU16_extend h10, readU16_extend h11, readStaticFields_extend h12,
    readU16_extend h13, readFieldDescriptors_extend h14]
  exact h

theorem instanceDump_ok {data : List Nat} {pos : Nat} {sr : SubRecord}
    {p' : Nat} (h : instanceDump data pos = .ok (sr, p')) :
    pos ≤ p' ∧ sr.isHeapDumpEnd = false := by
  unfold instanceDump at h
  split at h
  · cases h
  rename_i a1 p1 h1
  split at h
  · cases h
  rename_i a2 p2 h2
  split at h
  · cases h
  rename_i a3 p3 h3
  split at h
  · cases h
  rename_i a4 p4 h4
  split at h
  · cases h
  rename_i a5 p5 h5
  cases h
  refine ⟨?_, rfl⟩
  have e1 := (readU64_ok h1).1
  have e2 := (readU32_ok h2).1
  have e3 := (readU64_ok h3).1
  have e4 := (readU32_ok h4).1
  have e5 := (readBytes_ok h5).1
  omega

theorem instanceDump_clean {data : List Nat} {pos : Nat} :
    CleanErr (instanceDump data pos) := by
  intro e h
  unfold instanceDump at h
  split at h
  · rename_i e0 h1
    cases h
    exact readU64_clean _ h1
  rename_i a1 p1 h1
  split at h
  · rename_i e0 h2
    cases h
    exact readU32_clean _ h2
  rename_i a2 p2 h2
  split at h
  · rename_i e0 h3
    cases h
    exact readU64_clean _ h3
  rename_i a3 p3 h3
  split at h
  · rename_i e0 h4
    cases h
    exact readU32_clean _ h4
  rename_i a4 p4 h4
  split at h
  · rename_i e0 h5
    cases h
    exact readBytes_clean _ h5
  rename_i a5 p5 h5
  cases h

theorem instanceDump_extend {data extra : List Nat} {pos : Nat}
    {v : SubRecord × Nat} (h : instanceDump data pos = .ok v) :
    instanceDump (data ++ extra) pos = .ok v := by
  unfold instanceDump at h ⊢
  split at h
  · cases h
  rename_i a1 p1 h1
  split at h
  · cases h
  rename_i a2 p2 h2
  split at h
  · cases h
  rename_i a3 p3 h3
  split at h
  · cases h
  rename_i a4 p4 h4
  split at h
  · cases h
  rename_i a5 p5 h5
  simp only [readU64_extend h1, readU32_extend h2, readU64_extend h3,
    readU32_extend h4, readBytes_extend h5]
  exact h

theorem objArrayDump_ok {data : List Nat} {pos : Nat} {sr : SubRecord}
    {p' : Nat} (h : objArrayDump data pos = .ok (sr, p')) :
    pos ≤ p' ∧ sr.isHeapDumpEnd = false := by
  unfold objArrayDump at h
  split at h
  · cases h
  rename_i a1 p1 h1
  split at h
  · cases h
  rename_i a2 p2 h2
  split at h
  · cases h
  rename_i a3 p3 h3
  split at h
  · cases h
  rename_i a4 p4 h4
  split at h
  · cases h
  rename_i a5 p5 h5
  cases h
  refine ⟨?_, rfl⟩
  have e1 := (readU64_ok h1).1
  have e2 := (readU32_ok h2).1
  have e3 := (readU32_ok h3).1
  have e4 := (readU64_ok h4).1
  have e5 := readU64List_le h5
  omega

theorem objArrayDump_clean {data : List Nat} {pos : Nat} :
    CleanErr (objArrayDump data pos) := by
  intro e h
  unfold objArrayDump at h
  split at h
  · rename_i e0 h1
    cases h
    exact readU64_clean _ h1
  rename_i a1 p1 h1
  split at h
  · rename_i e0 h2
    cases h
    exact readU32_clean _ h2
  rename_i a2 p2 h2
  split at h
  · rename_i e0 h3
    cases h
    exact readU32_clean _ h3
  rename_i a3 p3 h3
  split at h
  · rename_i e0 h4
    cases h
    exact readU64_clean _ h4
  rename_i a4 p4 h4
  split at h
  · rename_i e0 h5
    cases h
    exact readU64List_clean _ h5
  rename_i a5 p5 h5
  cases h

theorem objArrayDump_extend {data extra : List Nat} {pos : Nat}
    {v : SubRecord × Nat} (h : objArrayDump data pos = .ok v) :
    objArrayDump (data ++ extra) pos = .ok v := by
  unfold objArrayDump at h ⊢
  split at h
  · cases h
  rename_i a1 p1 h1
  split at h
  · cases h
  rename_i a2 p2 h2
  split at h
  · cases h
  rename_i a3 p3 h3
  split at h
  · cases h
  rename_i a4 p4 h4
  split at h
  · cases h
  rename_i a5 p5 h5
  simp only [readU64_extend h1, readU32_extend h2, readU32_extend h3,
    readU64_extend h4, readU64List_extend h5]
  exact h

theorem primArrayDump_ok {data : List Nat} {pos : Nat} {sr : SubRecord}
    {p' : Nat} (h : primArrayDump data pos = .ok (sr, p')) :
    pos ≤ p' ∧ sr.isHeapDumpEnd = false := by
  unfold primArrayDump at h
  split at h
  · cases h
  rename_i a1 p1 h1
  split at h
  · cases h
  rename_i a2 p2 h2
  split at h
  · cases h
  rename_i a3 p3 h3
  split at h
  · cases h
  rename_i a4 p4 h4
  split at h
  · cases h
  rename_i a5 p5 h5
  cases h
  refine ⟨?_, rfl⟩
  have e1 := (readU64_ok h1).1
  have e2 := (readU32_ok h2).1
  have e3 := (readU32_ok h3).1
  have e4 := (readU8_ok h4).1
  have e5 := readPrimElements_le h5
  omega

theorem primArrayDump_clean {data : List Nat} {pos : Nat} :
    CleanErr (primArrayDump data pos) := by
  intro e h
  unfold primArrayDump at h
  split at h
  · rename_i e0 h1
    cases h
    exact readU64_clean _ h1
  rename_i a1 p1 h1
  split at h
  · rename_i e0 h2
    cases h
    exact readU32_clean _ h2
  rename_i a2 p2 h2
  split at h
  · rename_i e0 h3
    cases h
    exact readU32_clean _ h3
  rename_i a3 p3 h3
  split at h
  · rename_i e0 h4
    cases h
    exact readU8_clean _ h4
  rename_i a4 p4 h4
  split at h
  · rename_i e0 h5
    cases h
    exact readPrimElements_clean _ h5
  rename_i a5 p5 h5
  cases h

theorem primArrayDump_extend {data extra : List Nat} {pos : Nat}
    {v : SubRecord × Nat} (h : primArrayDump data pos = .ok v) :
    primArrayDump (data ++ extra) pos = .ok v := by
  unfold primArrayDump at h ⊢
  split at h
  · cases h
  rename_i a1 p1 h1
  split at h
  · cases h
  rename_i a2 p2 h2
  split at h
  · cases h
  rename_i a3 p3 h3
  split at h
  · cases h
  rename_i a4 p4 h4
  split at h
  · cases h
  rename_i a5 p5 h5
  simp only [readU64_extend h1, readU32_extend h2, readU32_extend h3,
    readU8_extend h4, readPrimElements_extend h5]
  exact h

theorem threadObj_ok {data : List Nat} {pos : Nat} {sr : SubRecord}
    {p' : Nat} (h : threadObj data pos = .ok (sr, p')) :
    pos ≤ p' ∧ sr.isHeapDumpEnd = false := by
  unfold threadObj at h
  split at h
  · cases h
  rename_i a1 p1 h1
  split at h
  · cases h
  rename_i a2 p2 h2
  split at h
  · cases h
  rename_i a3 p3 h3
  cases h
  refine ⟨?_, rfl⟩
  have e1 := (readU64_ok h1).1
  have e2 := (readU32_ok h2).1
  have e3 := (readU32_ok h3).1
  omega

theorem threadObj_clean {data : List Nat} {pos : Nat} :
    CleanErr (threadObj data pos) := by
  intro e h
  unfold threadObj at h
  split at h
  · rename_i e0 h1
    cases h
    exact readU64_clean _ h1
  rename_i a1 p1 h1
  split at h
  · rename_i e0 h2
    cases h
    exact readU32_clean _ h2
  rename_i a2 p2 h2
  split at h
  · rename_i e0 h3
    cases h
    exact readU32_clean _ h3
  rename_i a3 p3 h3
  cases h

theorem threadObj_extend {data extra : List Nat} {pos : Nat}
    {v : SubRecord × Nat} (h : threadObj data pos = .ok v) :
    threadObj (data ++ extra) pos = .ok v := by
  unfold threadObj at h ⊢
  split at h
  · cases h
  rename_i a1 p1 h1
  split at h
  · cases h
  rename_i a2 p2 h2
  split at h
  · cases h
  rename_i a3 p3 h3
  simp only [readU64_extend h1, readU32_extend h2, readU32_extend h3]
  exact h

theorem javaFrame_ok {data : List Nat} {pos : Nat} {sr : SubRecord}
    {p' : Nat} (h : javaFrame data pos = .ok (sr, p')) :
    pos ≤ p' ∧ sr.isHeapDumpEnd = false := by
  unfold javaFrame at h
  split at h
  · cases h
  rename_i a1 p1 h1
  split at h
  · cases h
  rename_i a2 p2 h2
  split at h
  · cases h
  rename_i a3 p3 h3
  cases h
  refine ⟨?_, rfl⟩
  have e1 := (readU64_ok h1).1
  have e2 := (readU32_ok h2).1
  have e3 := (readU32_ok h3).1
  omega

theorem javaFrame_clean {data : List Nat} {pos : Nat} :
    CleanErr (javaFrame data pos) := by
  intro e h
  unfold javaFrame at h
  split at h
  · rename_i e0 h1
    cases h
    exact readU64_clean _ h1
  rename_i a1 p1 h1
  split at h
  · rename_i e0 h2
    cases h
    exact readU32_clean _ h2
  rename_i a2 p2 h2
  split at h
  · rename_i e0 h3
    cases h
    exact readU32_clean _ h3
  rename_i a3 p3 h3
  cases h

theorem javaFrame_extend {data extra : List Nat} {pos : Nat}
    {v : SubRecord × Nat} (h : javaFrame data pos = .ok v) :
    javaFrame (data ++ extra) pos = .ok v := by
  unfold javaFrame at h ⊢
  split at h
  · cases h
  rename_i a1 p1 h1
  split at h
  · cases h
  rename_i a2 p2 h2
  split at h
  · cases h
  rename_i a3 p3 h3
  simp only [readU64_extend h1, readU32_extend h2, readU32_extend h3]
  exact h

theorem jniLocal_ok {data : List Nat} {pos : Nat} {sr : SubRecord}
    {p' : Nat} (h : jniLocal data pos = .ok (sr, p')) :
    pos ≤ p' ∧ sr.isHeapDumpEnd = false := by
  unfold jniLocal at h
  split at h
  · cases h
  rename_i a1 p1 h1
  split at h
  · cases h
  rename_i a2 p2 h2
  split at h
  · cases h
  rename_i a3 p3 h3
  cases h
  refine ⟨?_, rfl⟩
  have e1 := (readU64_ok h1).1
  have e2 := (readU32_ok h2).1
  have e3 := (readU32_ok h3).1
  omega

theorem jniLocal_clean {data : List Nat} {pos : Nat} :
    CleanErr (jniLocal data pos) := by
  intro e h
  unfold jniLocal at h
  split at h
  · rename_i e0 h1
    cases h
    exact readU64_clean _ h1
  rename_i a1 p1 h1
  split at h
  · rename_i e0 h2
    cases h
    exact readU32_clean _ h2
  rename_i a2 p2 h2
  split at h
  · rename_i e0 h3
    cases h
    exact readU32_clean _ h3
  rename_i a3 p3 h3
  cases h

theorem jniLocal_extend {data extra : List Nat} {pos : Nat}
    {v : SubRecord × Nat} (h : jniLocal data pos = .ok v) :
    jniLocal (data ++ extra) pos = .ok v := by
  unfold jniLocal at h ⊢
  split at h
  · cases h
  rename_i a1 p1 h1
  split at h
  · cases h
  rename_i a2 p2 h2
  split at h
  · cases h
  rename_i a3 p3 h3
  simp only [readU64_extend h1, readU32_extend h2, readU32_extend h3]
  exact h

theorem jniGlobal_ok {data : List Nat} {pos : Nat} {sr : SubRecord}
    {p' : Nat} (h : jniGlobal data pos = .ok (sr, p')) :
    pos ≤ p' ∧ sr.isHeapDumpEnd = false := by
  unfold jniGlobal at h
  split at h
  · cases h
  rename_i a1 p1 h1
  split at h
  · cases h
  rename_i a2 p2 h2
  cases h
  refine ⟨?_, rfl⟩
  have e1 := (readU64_ok h1).1
  have e2 := (readU64_ok h2).1
  omega

theorem jniGlobal_clean {data : List Nat} {pos : Nat} :
    CleanErr (jniGlobal data pos) := by
  intro e h
  unfold jniGlobal at h
  split at h
  · rename_i e0 h1
    cases h
    exact readU64_clean _ h1
  rename_i a1 p1 h1
  split at h
  · rename_i e0 h2
    cases h
    exact readU64_clean _ h2
  rename_i a2 p2 h2
  cases h

theorem jniGlobal_extend {data extra : List Nat} {pos : Nat}
    {v : SubRecord × Nat} (h : jniGlobal data pos = .ok v) :
    jniGlobal (data ++ extra) pos = .ok v := by
  unfold jniGlobal at h ⊢
  split at h
  · cases h
  rename_i a1 p1 h1
  split at h
  · cases h
  rename_i a2 p2 h2
  simp only [readU64_extend h1, readU64_extend h2]
  exact h

theorem stickyClass_ok {data : List Nat} {pos : Nat} {sr : SubRecord}
    {p' : Nat} (h : stickyClass data pos = .ok (sr, p')) :
    pos ≤ p' ∧ sr.isHeapDumpEnd = false := by
  unfold stickyClass at h
  split at h
  · cases h
  rename_i a1 p1 h1
  cases h
  refine ⟨?_, rfl⟩
  have e1 := (readU64_ok h1).1
  omega

theorem stickyClass_clean {data : List Nat} {pos : Nat} :
    CleanErr (stickyClass data pos) := by
  intro e h
  unfold stickyClass at h
  split at h
  · rename_i e0 h1
    cases h
    exact readU64_clean _ h1
  rename_i a1 p1 h1
  cases h

theorem stickyClass_extend {data extra : List Nat} {pos : Nat}
    {v : SubRecord × Nat} (h : stickyClass data pos = .ok v) :
    stickyClass (data ++ extra) pos = .ok v := by
  unfold stickyClass at h ⊢
  split at h
  · cases h
  rename_i a1 p1 h1
  simp only [readU64_extend h1]
  exact h

/-- On success, `SubRecord::new` strictly advances the position (it always
consumes at least the tag byte) and never yields the `HeapDumpEnd`
sentinel (tag `0x2c` is not dispatched). -/
theorem subRecordNew_ok {data : List Nat} {pos : Nat} {sr : SubRecord}
    {p' : Nat} (h : subRecordNew data pos = .ok (sr, p')) :
    pos < p' ∧ sr.isHeapDumpEnd = false := by
  unfold subRecordNew at h
  split at h
  · cases h
  rename_i tag p1 h0
  have e0 := (readU8_ok h0).1
  split at h <;>
    first
      | cases h
      | (have hb := jniGlobal_ok h; exact ⟨by omega, hb.2⟩)
      | (have hb := jniLocal_ok h; exact ⟨by omega, hb.2⟩)
      | (have hb := javaFrame_ok h; exact ⟨by omega, hb.2⟩)
      | (have hb := stickyClass_ok h; exact ⟨by omega, hb.2⟩)
      | (have hb := threadObj_ok h; exact ⟨by omega, hb.2⟩)
      | (have hb := classDump_ok h; exact ⟨by omega, hb.2⟩)
      | (have hb := instanceDump_ok h; exact ⟨by omega, hb.2⟩)
      | (have hb := objArrayDump_ok h; exact ⟨by omega, hb.2⟩)
      | (have hb := primArrayDump_ok h; exact ⟨by omega, hb.2⟩)

theorem subRecordNew_clean {data : List Nat} {pos : Nat} :
    CleanErr (subRecordNew data pos) := by
  intro e h
  unfold subRecordNew at h
  split at h
  · rename_i e0 h0
    cases h
    exact readU8_clean _ h0
  rename_i tag p1 h0
  split at h <;>
    first
      | (cases h; decide)
      | exact jniGlobal_clean _ h
      | exact jniLocal_clean _ h
      | exact javaFrame_clean _ h
      | exact stickyClass_clean _ h
      | exact threadObj_clean _ h
      | exact classDump_clean _ h
      | exact instanceDump_clean _ h
      | exact objArrayDump_clean _ h
      | exact primArrayDump_clean _ h

theorem subRecordNew_extend {data extra : List Nat} {pos : Nat}
    {v : SubRecord × Nat} (h : subRecordNew data pos = .ok v) :
    subRecordNew (data ++ extra) pos = .ok v := by
  unfold subRecordNew at h ⊢
  split at h
  · cases h
  rename_i tag p1 h0
  simp only [readU8_extend h0]
  split at h <;>
    first
      | cases h
      | exact jniGlobal_extend h
      | exact jniLocal_extend h
      | exact javaFrame_extend h
      | exact stickyClass_extend h
      | exact threadObj_extend h
      | exact classDump_extend h
      | exact instanceDump_extend h
      | exact objArrayDump_extend h
      | exact primArrayDump_extend h

/-! ## Lemmas about the heap-dump-segment loop -/

theorem segLoopF_fuel_mono {data : List Nat} {startPos br : Nat} :
    ∀ {fuel fuel' pos : Nat} {v : List SubRecord × Nat}, fuel ≤ fuel' →
      segLoopF data startPos br fuel pos = .ok v →
      segLoopF data startPos br fuel' pos = .ok v := by
  intro fuel
  induction fuel with
  | zero =>
      intro fuel' pos v _ h
      simp only [segLoopF] at h
      cases h
  | succ fuel ih =>
      intro fuel' pos v hle h
      obtain ⟨fuel'', rfl⟩ : ∃ f, fuel' = f + 1 := ⟨fuel' - 1, by omega⟩
      simp only [segLoopF] at h ⊢
      split at h
      · cases h
      rename_i sr p1 hsr
      split at h
      · rename_i hhde
        rw [if_pos hhde]
        exact h
      rename_i hhde
      rw [if_neg hhde]
      split at h
      · rename_i hrem
        rw [if_pos hrem]
        exact h
      rename_i hrem
      rw [if_neg hrem]
      split at h
      · cases h
      rename_i rest p2 hrec
      simp only [ih (show _ ≤ fuel'' from by omega) hrec]
      exact h

theorem segLoopF_extend {data extra : List Nat} {startPos br : Nat} :
    ∀ {fuel pos : Nat} {v : List SubRecord × Nat},
      segLoopF data startPos br fuel pos = .ok v →
      segLoopF (data ++ extra) startPos br fuel pos = .ok v := by
  intro fuel
  induction fuel with
  | zero =>
      intro pos v h
      simp only [segLoopF] at h
      cases h
  | succ fuel ih =>
      intro pos v h
      simp only [segLoopF] at h ⊢
      split at h
      · cases h
      rename_i sr p1 hsr
      simp only [subRecordNew_extend hsr]
      split at h
      · rename_i hhde
        rw [if_pos hhde]
        exact h
      rename_i hhde
      rw [if_neg hhde]
      split at h
      · rename_i hrem
        rw [if_pos hrem]
        exact h
      rename_i hrem
      rw [if_neg hrem]
      split at h
      · cases h
      rename_i rest p2 hrec
      simp only [ih hrec]
      exact h

theorem segLoopF_clean {data : List Nat} {startPos br : Nat} :
    ∀ {fuel pos : Nat}, CleanErr (segLoopF data startPos br fuel pos) := by
  intro fuel
  induction fuel with
  | zero =>
      intro pos e h
      simp only [segLoopF] at h
      cases h
      decide
  | succ fuel ih =>
      intro pos e h
      simp only [segLoopF] at h
      split at h
      · rename_i e0 hsr
        cases h
        exact subRecordNew_clean _ hsr
      rename_i sr p1 hsr
      split at h
      · cases h
      split at h
      · cases h
      split at h
      · rename_i e0 hrec
        cases h
        exact ih _ hrec
      cases h

/-- In an overrun state (`bytesRemaining < pos - startPos`), the segment
loop can never terminate successfully: the exact-length condition can no
longer be met and the `HeapDumpEnd` sentinel is never produced, so it
reads sub-records until some error occurs. -/
theorem segLoopF_overrun {data : List Nat} {startPos br : Nat} :
    ∀ {fuel pos : Nat}, startPos ≤ pos → br < pos - startPos →
      ∃ e, segLoopF data startPos br fuel pos = .error e := by
  intro fuel
  induction fuel with
  | zero =>
      intro pos _ _
      exact ⟨.io, by simp only [segLoopF]⟩
  | succ fuel ih =>
      intro pos hsp hover
      cases hsub : subRecordNew data pos with
      | error e => exact ⟨e, by simp only [segLoopF, hsub]⟩
      | ok w =>
          obtain ⟨sr, p1⟩ := w
          obtain ⟨hlt, hhde⟩ := subRecordNew_ok hsub
          obtain ⟨e, he⟩ := @ih p1 (by omega) (by omega)
          refine ⟨e, ?_⟩
          simp only [segLoopF, hsub]
          rw [if_neg (show ¬(sr.isHeapDumpEnd = true) from by simp [hhde]),
            if_neg (show ¬(p1 - startPos = br) from by omega), he]

/-- With `bytesRemaining = 0` the segment loop always fails: it reads a
sub-record before any check, after which it is permanently in an overrun
state. -/
theorem segLoopF_zeroRem {data : List Nat} {startPos : Nat} :
    ∀ {fuel pos : Nat}, startPos ≤ pos →
      ∃ e, segLoopF data startPos 0 fuel pos = .error e := by
  intro fuel pos hsp
  cases fuel with
  | zero => exact ⟨.io, by simp only [segLoopF]⟩
  | succ fuel =>
      cases hsub : subRecordNew data pos with
      | error e => exact ⟨e, by simp only [segLoopF, hsub]⟩
      | ok w =>
          obtain ⟨sr, p1⟩ := w
          obtain ⟨hlt, hhde⟩ := subRecordNew_ok hsub
          obtain ⟨e, he⟩ := @segLoopF_overrun data startPos 0 fuel p1 (by omega) (by omega)
          refine ⟨e, ?_⟩
          simp only [segLoopF, hsub]
          rw [if_neg (show ¬(sr.isHeapDumpEnd = true) from by simp [hhde]),
            if_neg (show ¬(p1 - startPos = 0) from by omega), he]

theorem recHeapDumpSegment_clean {data : List Nat}
    {micros br pos : Nat} : CleanErr (recHeapDumpSegment data micros br pos) := by
  intro e h
  unfold recHeapDumpSegment at h
  split at h
  · rename_i e0 hseg
    cases h
    exact segLoopF_clean _ hseg
  cases h

theorem recHeapDumpSegment_extend {data extra : List Nat}
    {micros br pos : Nat} {v : Record × Nat}
    (h : recHeapDumpSegment data micros br pos = .ok v) :
    recHeapDumpSegment (data ++ extra) micros br pos = .ok v := by
  unfold recHeapDumpSegment at h ⊢
  split at h
  · cases h
  rename_i subs p1 hseg
  have hseg2 : segLoopF (data ++ extra) pos br (data.length + 1) pos =
      .ok (subs, p1) := segLoopF_extend hseg
  have hseg' := segLoopF_fuel_mono
    (show data.length + 1 ≤ (data ++ extra).length + 1 by
      simp [List.length_append])
    hseg2
  simp only [hseg']
  exact h

/-! ## Lemmas about the record decoder -/

theorem recUtf8_extend {data extra : List Nat} {micros br pos : Nat}
    {v : Record × Nat} (h : recUtf8 data micros br pos = .ok v) :
    recUtf8 (data ++ extra) micros br pos = .ok v := by
  unfold recUtf8 at h ⊢
  split at h
  · cases h
  rename_i nid p1 h1
  simp only [readU64_extend h1]
  split at h
  · cases h
  rename_i n hsub
  split at h
  · cases h
  rename_i content p2 h2
  simp only [readUtf8_extend h2]
  exact h

theorem recLoadClass_extend {data extra : List Nat} {micros pos : Nat}
    {v : Record × Nat} (h : recLoadClass data micros pos = .ok v) :
    recLoadClass (data ++ extra) micros pos = .ok v := by
  unfold recLoadClass at h ⊢
  split at h
  · cases h
  rename_i a1 p1 h1
  split at h
  · cases h
  rename_i a2 p2 h2
  split at h
  · cases h
  rename_i a3 p3 h3
  split at h
  · cases h
  rename_i a4 p4 h4
  simp only [readU32_extend h1, readU64_extend h2, readU32_extend h3,
    readU64_extend h4]
  exact h

theorem recTrace_extend {data extra : List Nat} {micros pos : Nat}
    {v : Record × Nat} (h : recTrace data micros pos = .ok v) :
    recTrace (data ++ extra) micros pos = .ok v := by
  unfold recTrace at h ⊢
  split at h
  · cases h
  rename_i a1 p1 h1
  split at h
  · cases h
  rename_i a2 p2 h2
  split at h
  · cases h
  rename_i a3 p3 h3
  split at h
  · cases h
  rename_i a4 p4 h4
  simp only [readU32_extend h1, readU32_extend h2, readU32_extend h3,
    readU64List_extend h4]
  exact h

theorem recFrame_extend {data extra : List Nat} {micros pos : Nat}
    {v : Record × Nat} (h : recFrame data micros pos = .ok v) :
    recFrame (data ++ extra) micros pos = .ok v := by
  unfold recFrame at h ⊢
  split at h
  · cases h
  rename_i a1 p1 h1
  split at h
  · cases h
  rename_i a2 p2 h2
  split at h
  · cases h
  rename_i a3 p3 h3
  split at h
  · cases h
  rename_i a4 p4 h4
  split at h
  · cases h
  rename_i a5 p5 h5
  split at h
  · cases h
  rename_i a6 p6 h6
  simp only [readU64_extend h1, readU64_extend h2, readU64_extend h3,
    readU64_extend h4, readU32_extend h5, readI32_extend h6]
  exact h

theorem recordParse_extend {data extra : List Nat} {pos : Nat}
    {v : Record × Nat} (h : recordParse data pos = .ok v) :
    recordParse (data ++ extra) pos = .ok v := by
  unfold recordParse at h ⊢
  split at h
  · cases h
  rename_i tag p1 h1
  simp only [readU8_extend h1]
  split at h
  · cases h
  rename_i micros p2 h2
  simp only [readU32_extend h2]
  split at h
  · cases h
  rename_i br p3 h3
  simp only [readU32_extend h3]
  split at h <;>
    first
      | exact recUtf8_extend h
      | exact recLoadClass_extend h
      | exact recFrame_extend h
      | exact recTrace_extend h
      | exact recHeapDumpSegment_extend h
      | exact h

/-! ## Lemmas about the top-level record loop and file decoder -/

theorem parseLoopF_fuel_mono {data : List Nat} :
    ∀ {fuel fuel' pos : Nat} {v : List Record × Nat}, fuel ≤ fuel' →
      parseLoopF data fuel pos = .ok v →
      parseLoopF data fuel' pos = .ok v := by
  intro fuel
  induction fuel with
  | zero =>
      intro fuel' pos v _ h
      simp only [parseLoopF] at h
      cases h
  | succ fuel ih =>
      intro fuel' pos v hle h
      obtain ⟨fuel'', rfl⟩ : ∃ f, fuel' = f + 1 := ⟨fuel' - 1, by omega⟩
      simp only [parseLoopF] at h ⊢
      split at h
      · cases h
      rename_i r p1 hr
      split at h
      · rename_i hhde
        rw [if_pos hhde]
        exact h
      rename_i hhde
      rw [if_neg hhde]
      split at h
      · cases h
      rename_i rest p2 hrec
      simp only [ih (show _ ≤ fuel'' from by omega) hrec]
      exact h

theorem parseLoopF_extend {data extra : List Nat} :
    ∀ {fuel pos : Nat} {v : List Record × Nat},
      parseLoopF data fuel pos = .ok v →
      parseLoopF (data ++ extra) fuel pos = .ok v := by
  intro fuel
  induction fuel with
  | zero =>
      intro pos v h
      simp only [parseLoopF] at h
      cases h
  | succ fuel ih =>
      intro pos v h
      simp only [parseLoopF] at h ⊢
      split at h
      · cases h
      rename_i r p1 hr
      simp only [recordParse_extend hr]
      split at h
      · rename_i hhde
        rw [if_pos hhde]
        exact h
      rename_i hhde
      rw [if_neg hhde]
      split at h
      · cases h
      rename_i rest p2 hrec
      simp only [ih hrec]
      exact h

/-- Trailing bytes are invisible to a successful decode: `ParsedHeap::parse`
stops after the first `HeapDumpEnd` record, so appending arbitrary extra
bytes to a file that decodes successfully leaves the decode result
unchanged. -/
theorem parseHeap_extend {data extra : List Nat} {h : ParsedHeap}
    (hp : parseHeap data = .ok h) : parseHeap (data ++ extra) = .ok h := by
  unfold parseHeap at hp ⊢
  split at hp
  · cases hp
  rename_i banner p1 h1
  simp only [readUtf8_extend h1]
  split at hp
  · cases hp
  rename_i z p2 h2
  simp only [readU8_extend h2]
  split at hp
  · cases hp
  rename_i idsz p3 h3
  simp only [readU32_extend h3]
  split at hp
  · cases hp
  rename_i hid
  rw [if_neg hid]
  split at hp
  · cases hp
  rename_i ts p4 h4
  simp only [readU64_extend h4]
  split at hp
  · rename_i hts
    rw [if_pos hts]
    split at hp
    · cases hp
    rename_i records p5 hrec
    have hrec2 : parseLoopF (data ++ extra) (data.length + 1) p4 =
        .ok (records, p5) := parseLoopF_extend hrec
    have hrec' := parseLoopF_fuel_mono
      (show data.length + 1 ≤ (data ++ extra).length + 1 by
        simp [List.length_append])
      hrec2
    simp only [hrec']
    split at hp
    · cases hp
    rename_i version hver
    exact hp
  · cases hp

/-- `Record::heap_dump_segment` always fails when `bytes_remaining = 0`:
the loop body runs before any termination check. -/
theorem recHeapDumpSegment_zero (data : List Nat) (micros pos : Nat) :
    ∃ e, recHeapDumpSegment data micros 0 pos = .error e := by
  obtain ⟨e, he⟩ := @segLoopF_zeroRem data pos (data.length + 1) pos
    (Nat.le_refl pos)
  exact ⟨e, by unfold recHeapDumpSegment; rw [he]⟩

/-- Successful `ClassDump` decoding forces the two count fields to equal
the lengths of the decoded sequences. -/
theorem subRecordNew_classDump_fields {data : List Nat} {pos : Nat}
    {coid stsn sup cld sig pd r1 r2 isz cps nsf : Nat} {sf : List Field}
    {nif : Nat} {ifd : List FieldDescriptor} {p' : Nat}
    (h : subRecordNew data pos =
      .ok (.classDump coid stsn sup cld sig pd r1 r2 isz cps nsf sf nif ifd,
        p')) :
    nsf = sf.length ∧ nif = ifd.length := by
  unfold subRecordNew at h
  split at h
  · cases h
  rename_i tag p1 h0
  split at h <;>
    first
      | cases h
      | (first
          | unfold jniGlobal at h
          | unfold jniLocal at h
          | unfold javaFrame at h
          | unfold stickyClass at h
          | unfold threadObj at h
          | unfold classDump at h
          | unfold instanceDump at h
          | unfold objArrayDump at h
          | unfold primArrayDump at h
         repeat (split at h <;> try (cases h ; done))
         all_goals cases h
         all_goals
           exact ⟨(readStaticFields_length (by assumption)).symm,
             (readFieldDescriptors_length (by assumption)).symm⟩)

/-! ## Reads at a known offset of a concatenated buffer -/

theorem readBE_at {data : List Nat} (pre l rest : List Nat) {k pos : Nat}
    (hdata : data = pre ++ (l ++ rest)) (hk : l.length = k)
    (hpos : pos = pre.length) :
    readBE data k pos = .ok (beNat l, pos + k) := by
  subst hdata hpos hk
  unfold readBE readBytes
  rw [if_pos (by simp)]
  rw [List.drop_left, List.take_left]

theorem beNat_singleton (t : Nat) : beNat [t] = t := by
  simp [beNat]

/-! ## Modified-UTF-8 lemmas -/

theorem utf8Cont_range {b : Nat} (h : utf8Cont b = true) :
    0x80 ≤ b ∧ b ≤ 0xBF := by
  simpa [utf8Cont] using h

theorem utf8Cont3_range {b c : Nat} (h : utf8Cont3 b c = true) :
    0x80 ≤ c ∧ c ≤ 0xBF := by
  unfold utf8Cont3 at h
  split at h
  · simp at h
    omega
  split at h
  · simp at h
    omega
  exact utf8Cont_range h

theorem utf8Cont4_range {b c : Nat} (h : utf8Cont4 b c = true) :
    0x80 ≤ c ∧ c ≤ 0xBF := by
  unfold utf8Cont4 at h
  split at h
  · simp at h
    omega
  split at h
  · simp at h
    omega
  exact utf8Cont_range h

theorem validUtf8Char_no_c0 {c : List Nat} (hc : validUtf8Char c = true) :
    ∀ x ∈ c, x ≠ 0xC0 := by
  intro x hx
  rcases c with _ | ⟨b, _ | ⟨c1, _ | ⟨d, _ | ⟨e, _ | ⟨f, tail⟩⟩⟩⟩⟩
  · cases hx
  · simp only [validUtf8Char, decide_eq_true_eq] at hc
    simp only [List.mem_singleton] at hx
    omega
  · simp only [validUtf8Char, Bool.and_eq_true, decide_eq_true_eq] at hc
    obtain ⟨⟨hb1, hb2⟩, hcont⟩ := hc
    have := utf8Cont_range hcont
    simp only [List.mem_cons, List.mem_singleton, List.not_mem_nil,
      or_false] at hx
    rcases hx with rfl | rfl <;> omega
  · simp only [validUtf8Char, Bool.and_eq_true, decide_eq_true_eq] at hc
    obtain ⟨⟨⟨hb1, hb2⟩, h3⟩, h4⟩ := hc
    have := utf8Cont3_range h3
    have := utf8Cont_range h4
    simp only [List.mem_cons, List.not_mem_nil, or_false] at hx
    rcases hx with rfl | rfl | rfl <;> omega
  · simp only [validUtf8Char, Bool.and_eq_true, decide_eq_true_eq] at hc
    obtain ⟨⟨⟨⟨hb1, hb2⟩, h3⟩, h4⟩, h5⟩ := hc
    have := utf8Cont4_range h3
    have := utf8Cont_range h4
    have := utf8Cont_range h5
    simp only [List.mem_cons, List.not_mem_nil, or_false] at hx
    rcases hx with rfl | rfl | rfl | rfl <;> omega
  · simp [validUtf8Char] at hc

theorem validUtf8Char_pair_false : validUtf8Char [0xC0, 0x80] = false := by
  decide

theorem fixModUtf8_cons_ne {b : Nat} (hb : b ≠ 0xC0) (t : List Nat) :
    fixModUtf8 (b :: t) = b :: fixModUtf8 t := by
  cases t with
  | nil => simp [fixModUtf8]
  | cons c rest =>
      simp only [fixModUtf8]
      rw [if_neg (by intro hcon; exact hb hcon.1)]

theorem fixModUtf8_pair (t : List Nat) :
    fixModUtf8 (0xC0 :: 0x80 :: t) = 0x00 :: fixModUtf8 t := by
  simp [fixModUtf8]

theorem fixModUtf8_append_no_c0 {l s : List Nat}
    (hl : ∀ x ∈ l, x ≠ 0xC0) :
    fixModUtf8 (l ++ s) = l ++ fixModUtf8 s := by
  induction l with
  | nil => rfl
  | cons b l ih =>
      rw [List.cons_append, fixModUtf8_cons_ne (hl b (by simp)),
        ih (fun x hx => hl x (by simp [hx]))]
      simp

theorem fixModUtf8_join {blocks : List (List Nat)}
    (hb : ∀ blk ∈ blocks, blk = [0xC0, 0x80] ∨ validUtf8Char blk = true) :
    fixModUtf8 blocks.flatten =
      (blocks.map
        (fun blk => if blk = [0xC0, 0x80] then [0x00] else blk)).flatten := by
  induction blocks with
  | nil => rfl
  | cons blk rest ih =>
      simp only [List.map_cons, List.flatten_cons]
      rcases hb blk (by simp) with hpair | hchar
      · subst hpair
        rw [if_pos rfl]
        show fixModUtf8 (0xC0 :: 0x80 :: rest.flatten) = _
        rw [fixModUtf8_pair, ih (fun b hbm => hb b (by simp [hbm]))]
        rfl
      · have hne : blk ≠ [0xC0, 0x80] := by
          intro hcon
          rw [hcon, validUtf8Char_pair_false] at hchar
          cases hchar
        rw [if_neg hne,
          fixModUtf8_append_no_c0 (validUtf8Char_no_c0 hchar),
          ih (fun b hbm => hb b (by simp [hbm]))]

theorem validUtf8_char_append {c s : List Nat}
    (hc : validUtf8Char c = true) (hs : validUtf8 s = true) :
    validUtf8 (c ++ s) = true := by
  unfold validUtf8 at hs ⊢
  rcases c with _ | ⟨b, _ | ⟨c1, _ | ⟨d, _ | ⟨e, _ | ⟨f, tail⟩⟩⟩⟩⟩
  · simpa using hs
  · simp only [validUtf8Char, decide_eq_true_eq] at hc
    show validUtf8Aux [] (b :: s) = true
    rw [validUtf8Aux, if_pos hc]
    exact hs
  · simp only [validUtf8Char, Bool.and_eq_true, decide_eq_true_eq] at hc
    obtain ⟨⟨hb1, hb2⟩, hcont⟩ := hc
    show validUtf8Aux [] (b :: c1 :: s) = true
    rw [validUtf8Aux, if_neg (by omega), if_neg (by omega), if_pos hb2,
      validUtf8Aux, if_pos (utf8Cont_range hcont)]
    exact hs
  · simp only [validUtf8Char, Bool.and_eq_true, decide_eq_true_eq] at hc
    obtain ⟨⟨⟨hb1, hb2⟩, h3⟩, h4⟩ := hc
    show validUtf8Aux [] (b :: c1 :: d :: s) = true
    rw [validUtf8Aux, if_neg (by omega), if_neg (by omega),
      if_neg (by omega), if_pos hb2]
    by_cases he0 : b = 0xE0
    · rw [if_pos he0, validUtf8Aux,
        if_pos (by simpa [utf8Cont3, he0] using h3), validUtf8Aux,
        if_pos (utf8Cont_range h4)]
      exact hs
    rw [if_neg he0]
    by_cases hed : b = 0xED
    · rw [if_pos hed, validUtf8Aux,
        if_pos (by simpa [utf8Cont3, hed, he0] using h3), validUtf8Aux,
        if_pos (utf8Cont_range h4)]
      exact hs
    rw [if_neg hed, validUtf8Aux,
      if_pos (utf8Cont_range (by simpa [utf8Cont3, he0, hed] using h3)),
      validUtf8Aux, if_pos (utf8Cont_range h4)]
    exact hs
  · simp only [validUtf8Char, Bool.and_eq_true, decide_eq_true_eq] at hc
    obtain ⟨⟨⟨⟨hb1, hb2⟩, h3⟩, h4⟩, h5⟩ := hc
    show validUtf8Aux [] (b :: c1 :: d :: e :: s) = true
    rw [validUtf8Aux, if_neg (by omega), if_neg (by omega),
      if_neg (by omega), if_neg (by omega), if_pos hb2]
    by_cases hf0 : b = 0xF0
    · rw [if_pos hf0, validUtf8Aux,
        if_pos (by simpa [utf8Cont4, hf0] using h3), validUtf8Aux,
        if_pos (utf8Cont_range h4), validUtf8Aux,
        if_pos (utf8Cont_range h5)]
      exact hs
    rw [if_neg hf0]
    by_cases hf4 : b = 0xF4
    · rw [if_pos hf4, validUtf8Aux,
        if_pos (by simpa [utf8Cont4, hf4, hf0] using h3), validUtf8Aux,
        if_pos (utf8Cont_range h4), validUtf8Aux,
        if_pos (utf8Cont_range h5)]
      exact hs
    rw [if_neg hf4, validUtf8Aux,
      if_pos (utf8Cont_range (by simpa [utf8Cont4, hf0, hf4] using h3)),
      validUtf8Aux, if_pos (utf8Cont_range h4), validUtf8Aux,
      if_pos (utf8Cont_range h5)]
    exact hs
  · simp [validUtf8Char] at hc

theorem validUtf8_join {blocks : List (List Nat)}
    (hb : ∀ blk ∈ blocks, blk = [0xC0, 0x80] ∨ validUtf8Char blk = true) :
    validUtf8
      ((blocks.map
        (fun blk => if blk = [0xC0, 0x80] then [0x00] else blk)).flatten) =
      true := by
  induction blocks with
  | nil => rfl
  | cons blk rest ih =>
      simp only [List.map_cons, List.flatten_cons]
      have hrest := ih (fun b hbm => hb b (by simp [hbm]))
      rcases hb blk (by simp) with hpair | hchar
      · rw [if_pos hpair]
        exact validUtf8_char_append (by decide) hrest
      · have hne : blk ≠ [0xC0, 0x80] := by
          intro hcon
          rw [hcon, validUtf8Char_pair_false] at hchar
          cases hchar
        rw [if_neg hne]
        exact validUtf8_char_append hchar hrest

theorem subst_join_length (blocks : List (List Nat)) :
    ((blocks.map
        (fun blk => if blk = [0xC0, 0x80] then [0x00] else blk)).flatten).length
      + blocks.countP (fun blk => decide (blk = [0xC0, 0x80]))
      = blocks.flatten.length := by
  induction blocks with
  | nil => rfl
  | cons blk rest ih =>
      rw [List.map_cons, List.flatten_cons, List.flatten_cons,
        List.countP_cons, List.length_append, List.length_append]
      by_cases hpair : blk = [0xC0, 0x80]
      · rw [if_pos hpair,
          if_pos (show (decide (blk = [0xC0, 0x80])) = true from by
            simp [hpair]), hpair]
        simp only [List.length_cons, List.length_nil]
        omega
      · rw [if_neg hpair,
          if_neg (show ¬((decide (blk = [0xC0, 0x80])) = true) from by
            simp [hpair])]
        omega

/-! ## Lemmas about the resolver -/

theorem instancesFold_err {classes : List (Nat × AClass)} :
    ∀ {subs : List SubRecord} {inst : List (Nat × AInstance)} {e : Err},
      instancesFold classes inst subs = .error e → e = .danglingClassRef := by
  intro subs
  induction subs with
  | nil =>
      intro inst e h
      simp only [instancesFold] at h
      cases h
  | cons sr rest ih =>
      intro inst e h
      cases sr with
      | instanceDump oid stsn coid nb raw =>
          simp only [instancesFold] at h
          split at h
          · exact ih h
          · cases h
            rfl
      | classDump a b c d f g i j k l m n o p =>
          simp only [instancesFold] at h
          exact ih h
      | objArrayDump a b c d =>
          simp only [instancesFold] at h
          exact ih h
      | primArrayDump a b c d =>
          simp only [instancesFold] at h
          exact ih h
      | threadObj a b c =>
          simp only [instancesFold] at h
          exact ih h
      | javaFrame a b c =>
          simp only [instancesFold] at h
          exact ih h
      | jniLocal a b c =>
          simp only [instancesFold] at h
          exact ih h
      | jniGlobal a b =>
          simp only [instancesFold] at h
          exact ih h
      | stickyClass a =>
          simp only [instancesFold] at h
          exact ih h
      | heapDumpEnd =>
          simp only [instancesFold] at h
          exact ih h

theorem pass2Step_err {strings : List (Nat × List Nat)} {st : Pass2State}
    {r : Record} {e : Err} (h : pass2Step strings st r = .error e) :
    e = .danglingStringRef ∨ e = .danglingClassRef := by
  cases r with
  | frame μ sfid mn ms sf csn ln =>
      simp only [pass2Step] at h
      split at h
      · cases h
        exact .inl rfl
      split at h
      · cases h
        exact .inl rfl
      split at h
      · cases h
        exact .inl rfl
      cases h
  | loadClass μ csn coid stsn cnid =>
      simp only [pass2Step] at h
      split at h
      · cases h
        exact .inl rfl
      cases h
  | heapDumpSegment μ subs =>
      simp only [pass2Step] at h
      split at h
      · cases h
      rename_i e0 hfold
      cases h
      exact .inr (instancesFold_err hfold)
  | utf8 μ nid content =>
      simp only [pass2Step] at h
      cases h
  | trace μ a b ids =>
      simp only [pass2Step] at h
      cases h
  | heapDumpEnd μ =>
      simp only [pass2Step] at h
      cases h

theorem pass2Step_dangling_frame {strings : List (Nat × List Nat)}
    {st : Pass2State} {μ sfid mn ms sf csn : Nat} {ln : Int}
    (hd : mapFind mn strings = none ∨ mapFind ms strings = none ∨
      mapFind sf strings = none) :
    pass2Step strings st (.frame μ sfid mn ms sf csn ln) =
      .error .danglingStringRef := by
  simp only [pass2Step]
  cases hmn : mapFind mn strings with
  | none => rfl
  | some mn' =>
      cases hms : mapFind ms strings with
      | none => rfl
      | some ms' =>
          cases hsf : mapFind sf strings with
          | none => rfl
          | some sf' =>
              rcases hd with hd | hd | hd <;>
                first
                  | (rw [hmn] at hd; cases hd)
                  | (rw [hms] at hd; cases hd)
                  | (rw [hsf] at hd; cases hd)

theorem pass2_dangling_frame {strings : List (Nat × List Nat)} :
    ∀ {rs : List Record} (st : Pass2State) {μ sfid mn ms sf csn : Nat}
      {ln : Int},
      (Record.frame μ sfid mn ms sf csn ln) ∈ rs →
      (mapFind mn strings = none ∨ mapFind ms strings = none ∨
        mapFind sf strings = none) →
      ∃ e, pass2 strings st rs = .error e ∧
        (e = .danglingStringRef ∨ e = .danglingClassRef) := by
  intro rs
  induction rs with
  | nil =>
      intro st μ sfid mn ms sf csn ln hm hd
      cases hm
  | cons r rest ih =>
      intro st μ sfid mn ms sf csn ln hm hd
      rcases List.mem_cons.mp hm with rfl | hm
      · refine ⟨.danglingStringRef, ?_, .inl rfl⟩
        simp only [pass2]
        rw [pass2Step_dangling_frame hd]
      · cases hstep : pass2Step strings st r with
        | error e =>
            refine ⟨e, ?_, pass2Step_err hstep⟩
            simp only [pass2, hstep]
        | ok st' =>
            obtain ⟨e, he, hkind⟩ := ih st' hm hd
            refine ⟨e, ?_, hkind⟩
            simp only [pass2, hstep]
            exact he

theorem pass2_frames {strings : List (Nat × List Nat)} :
    ∀ {rs : List Record} {st st' : Pass2State},
      pass2 strings st rs = .ok st' →
      ∃ new, st'.frames = st.frames ++ new ∧
        List.Forall₂ (frameResolved strings) (frameRecords rs) new := by
  intro rs
  induction rs with
  | nil =>
      intro st st' h
      simp only [pass2] at h
      cases h
      exact ⟨[], by simp, by simp [frameRecords, List.filter_nil]⟩
  | cons r rest ih =>
      intro st st' h
      simp only [pass2] at h
      split at h
      case h_2 => cases h
      rename_i st₁ hstep
      obtain ⟨new, hfr, hfa⟩ := ih h
      cases r with
      | frame μ sfid mn ms sf csn ln =>
          simp only [pass2Step] at hstep
          split at hstep
          · cases hstep
          rename_i mn' hmn
          split at hstep
          · cases hstep
          rename_i ms' hms
          split at hstep
          · cases hstep
          rename_i sf' hsf
          cases hstep
          refine ⟨⟨sfid, mn', ms', sf', csn, ln⟩ :: new, ?_, ?_⟩
          · rw [hfr]
            simp
          · have hfrec : frameRecords (Record.frame μ sfid mn ms sf csn ln
                :: rest) = Record.frame μ sfid mn ms sf csn ln ::
                frameRecords rest := by
              simp [frameRecords, List.filter_cons, Record.isFrame]
            rw [hfrec]
            exact List.Forall₂.cons ⟨rfl, hmn, hms, hsf, rfl, rfl⟩ hfa
      | loadClass μ csn coid stsn cnid =>
          simp only [pass2Step] at hstep
          split at hstep
          · cases hstep
          rename_i name hname
          cases hstep
          refine ⟨new, hfr, ?_⟩
          simpa [frameRecords, List.filter_cons, Record.isFrame] using hfa
      | heapDumpSegment μ subs =>
          simp only [pass2Step] at hstep
          split at hstep
          case h_2 => cases hstep
          rename_i inst' hinst
          cases hstep
          refine ⟨new, hfr, ?_⟩
          simpa [frameRecords, List.filter_cons, Record.isFrame] using hfa
      | utf8 μ nid content =>
          simp only [pass2Step] at hstep
          cases hstep
          refine ⟨new, hfr, ?_⟩
          simpa [frameRecords, List.filter_cons, Record.isFrame] using hfa
      | trace μ a b ids =>
          simp only [pass2Step] at hstep
          cases hstep
          refine ⟨new, hfr, ?_⟩
          simpa [frameRecords, List.filter_cons, Record.isFrame] using hfa
      | heapDumpEnd μ =>
          simp only [pass2Step] at hstep
          cases hstep
          refine ⟨new, hfr, ?_⟩
          simpa [frameRecords, List.filter_cons, Record.isFrame] using hfa

theorem pass2_utf8_front {strings : List (Nat × List Nat)}
    {st : Pass2State} :
    ∀ (pre : List (Nat × Nat × List Nat)) (rs : List Record),
      pass2 strings st
        (pre.map (fun p => Record.utf8 p.1 p.2.1 p.2.2) ++ rs) =
      pass2 strings st rs := by
  intro pre
  induction pre with
  | nil => intro rs; rfl
  | cons p pre ih =>
      intro rs
      simp only [List.map_cons, List.cons_append, pass2]
      exact ih rs

/-! ## Claim theorems -/

/-- Claim C1, counterexample: a HeapDumpSegment record with
`bytes_remaining = 0` and no payload does NOT decode to
`HeapDumpSegment { sub_records: [] }` with no payload consumed — the
decoder reads a sub-record first and here fails with `Io` at end of
input. -/
theorem claim1_counterexample :
    recordParse [0x1C, 0, 0, 0, 0, 0, 0, 0, 0] 0 = .error .io ∧
    recordParse [0x1C, 0, 0, 0, 0, 0, 0, 0, 0] 0 ≠
      .ok (.heapDumpSegment 0 [], 9) := by
  constructor
  · rfl
  · decide

/-- Claim C1, amended: for `bytes_remaining = 0` the decoder reads at
least one sub-record before any termination check, and since the
exact-length condition can then never be met, decoding such a record
always fails — it never returns `HeapDumpSegment { sub_records: [] }`. -/
theorem claim1_amended (data : List Nat) (micros pos : Nat) :
    ∃ e, recHeapDumpSegment data micros 0 pos = .error e :=
  recHeapDumpSegment_zero data micros pos

/-- Claim C2, counterexample: a segment whose first sub-record overruns
`bytes_remaining = 1` (a 9-byte StickyClass) does not fail with
`SegmentOverrun`; the loop keeps reading and fails with `Io` at end of
input. -/
theorem claim2_counterexample :
    recordParse [0x1C, 0, 0, 0, 0, 0, 0, 0, 1,
      0x05, 1, 2, 3, 4, 5, 6, 7, 8] 0 = .error .io ∧
    Err.io ≠ Err.segmentOverrun := by
  constructor
  · rfl
  · decide

/-- Claim C2, amended: the decoder has no overrun check.  Once the
cumulative bytes consumed strictly exceed `bytes_remaining`, the segment
loop keeps reading sub-records and decoding inevitably fails — but with
some error other than `SegmentOverrun`, which is produced nowhere. -/
theorem claim2_amended (data : List Nat) (startPos br fuel pos : Nat)
    (hsp : startPos ≤ pos) (hover : br < pos - startPos) :
    ∃ e, segLoopF data startPos br fuel pos = .error e ∧
      e ≠ .segmentOverrun := by
  obtain ⟨e, he⟩ := segLoopF_overrun hsp hover
  exact ⟨e, he, segLoopF_clean e he⟩

/-- Claim C2, witness for the amended theorem at a concrete overrun
state. -/
theorem claim2_witness :
    ∃ e, segLoopF [] 0 0 1 1 = .error e ∧ e ≠ .segmentOverrun :=
  claim2_amended [] 0 0 1 1 (by decide) (by decide)

/-- Claim C3, counterexample: the minimal valid dump still decodes
successfully, with the same result, after a trailing byte is appended —
decoding does not fail with `Io` or `BadTag`. -/
theorem claim3_counterexample :
    parseHeap minimalDump =
      .ok ⟨.javaProfile102, 0, [.heapDumpEnd 0]⟩ ∧
    parseHeap (minimalDump ++ [0xFF]) =
      .ok ⟨.javaProfile102, 0, [.heapDumpEnd 0]⟩ := by
  constructor
  · rfl
  · rfl

/-- Claim C3, amended: for every input that decodes successfully,
appending any single trailing byte leaves decoding successful with the
identical result — `ParsedHeap::parse` stops at the first `HeapDumpEnd`
record and never looks at trailing bytes. -/
theorem claim3_amended (data : List Nat) (b : Nat) (h : ParsedHeap)
    (hp : parseHeap data = .ok h) : parseHeap (data ++ [b]) = .ok h :=
  parseHeap_extend hp

/-- Claim C3, witness: the amended theorem applied to the minimal valid
dump and trailing byte `0xFF`. -/
theorem claim3_witness :
    parseHeap (minimalDump ++ [0xFF]) =
      .ok ⟨.javaProfile102, 0, [.heapDumpEnd 0]⟩ :=
  claim3_amended minimalDump 0xFF _ (by rfl)

/-- Claim C4, counterexample: an `InstanceDump` whose `LoadClass` (id
100) appears later in the list, with the referenced `Utf8` record
present, makes the resolver fail with `DanglingClassRef` instead of
succeeding. -/
theorem claim4_counterexample :
    analyzeRecords
      [.utf8 0 42 [0x6A, 0x61, 0x76, 0x61],
       .heapDumpSegment 0 [.instanceDump 500 0 100 0 []],
       .loadClass 0 1 100 0 42,
       .heapDumpEnd 0] = .error .danglingClassRef := by
  rfl

/-- Claim C4, amended: two-pass resolution makes ordering irrelevant only
for string references.  Classes and instances are built in one second
pass in record order, so an `InstanceDump` that precedes every
`LoadClass` record (in particular the one bearing its
`class_object_id`) fails with `DanglingClassRef`, no matter what `Utf8`
records precede it and what records follow. -/
theorem claim4_amended (pre : List (Nat × Nat × List Nat))
    (σ oid stsn coid nb : Nat) (raw : List Nat) (more : List SubRecord)
    (rest : List Record) :
    analyzeRecords
      (pre.map (fun p => Record.utf8 p.1 p.2.1 p.2.2) ++
        Record.heapDumpSegment σ
          (SubRecord.instanceDump oid stsn coid nb raw :: more) :: rest) =
      .error .danglingClassRef := by
  unfold analyzeRecords
  rw [pass2_utf8_front]
  simp [pass2, pass2Step, instancesFold, mapFind]

/-- Claim C5, counterexample: the spec's Utf8 example bytes declare
`bytes_remaining = 0x0D`, so only `13 − 8 = 5` content bytes are read:
the decoded content is `"hello"`, not `"hello\0!"`. -/
theorem claim5_counterexample :
    recordParse [0x01, 0, 0, 0, 1, 0, 0, 0, 0x0D,
      0, 0, 0, 0, 0, 0, 0, 7,
      0x68, 0x65, 0x6C, 0x6C, 0x6F, 0xC0, 0x80, 0x21] 0 =
      .ok (.utf8 1 7 [0x68, 0x65, 0x6C, 0x6C, 0x6F], 22) ∧
    Record.utf8 1 7 [0x68, 0x65, 0x6C, 0x6C, 0x6F] ≠
      Record.utf8 1 7 [0x68, 0x65, 0x6C, 0x6C, 0x6F, 0x00, 0x21] := by
  constructor
  · rfl
  · decide

/-- Claim C5, amended: decoding those bytes yields
`Utf8 { micros: 1, name_id: 7, content: "hello" }`, consuming 22 of the
25 bytes and leaving `C0 80 21` unread (content `"hello\0!"` would
require `bytes_remaining = 0x10`). -/
theorem claim5_amended :
    recordParse [0x01, 0, 0, 0, 1, 0, 0, 0, 0x0D,
      0, 0, 0, 0, 0, 0, 0, 7,
      0x68, 0x65, 0x6C, 0x6C, 0x6F, 0xC0, 0x80, 0x21] 0 =
      .ok (.utf8 1 7 [0x68, 0x65, 0x6C, 0x6C, 0x6F], 22) ∧
    ([0x01, 0, 0, 0, 1, 0, 0, 0, 0x0D,
      0, 0, 0, 0, 0, 0, 0, 7,
      0x68, 0x65, 0x6C, 0x6C, 0x6F, 0xC0, 0x80, 0x21] : List Nat).length
      = 25 := by
  constructor
  · rfl
  · rfl

/-- Claim C6: `read_utf8(n)` on an `n`-byte buffer made of `k` disjoint
`0xC0 0x80` pairs and otherwise whole valid-UTF-8 characters returns the
buffer with each pair replaced by a single `0x00` byte and every other
byte passed through unchanged, of length exactly `n − k`. -/
theorem claim6_read_utf8 (blocks : List (List Nat))
    (hb : ∀ blk ∈ blocks, blk = [0xC0, 0x80] ∨ validUtf8Char blk = true) :
    readUtf8 blocks.flatten blocks.flatten.length 0 =
      .ok ((blocks.map
        (fun blk => if blk = [0xC0, 0x80] then [0x00] else blk)).flatten,
        blocks.flatten.length) ∧
    ((blocks.map
        (fun blk => if blk = [0xC0, 0x80] then [0x00] else blk)).flatten).length
      + blocks.countP (fun blk => decide (blk = [0xC0, 0x80]))
      = blocks.flatten.length := by
  refine ⟨?_, subst_join_length blocks⟩
  unfold readUtf8
  have hrb : readBytes blocks.flatten blocks.flatten.length 0 =
      .ok (blocks.flatten, blocks.flatten.length) := by
    unfold readBytes
    rw [if_pos (by omega)]
    simp
  simp only [hrb]
  rw [fixModUtf8_join hb, if_pos (validUtf8_join hb)]

/-- Claim C6, witness: the buffer `hello` + `C0 80` + `!` (k = 1). -/
theorem claim6_witness :
    readUtf8
      ([[0x68], [0x65], [0x6C], [0x6C], [0x6F], [0xC0, 0x80],
        [0x21]] : List (List Nat)).flatten
      ([[0x68], [0x65], [0x6C], [0x6C], [0x6F], [0xC0, 0x80],
        [0x21]] : List (List Nat)).flatten.length 0 =
      .ok ((([[0x68], [0x65], [0x6C], [0x6C], [0x6F], [0xC0, 0x80],
        [0x21]] : List (List Nat)).map
        (fun blk => if blk = [0xC0, 0x80] then [0x00] else blk)).flatten,
        ([[0x68], [0x65], [0x6C], [0x6C], [0x6F], [0xC0, 0x80],
          [0x21]] : List (List Nat)).flatten.length) ∧
    ((([[0x68], [0x65], [0x6C], [0x6C], [0x6F], [0xC0, 0x80],
        [0x21]] : List (List Nat)).map
        (fun blk => if blk = [0xC0, 0x80] then [0x00] else blk)).flatten).length
      + ([[0x68], [0x65], [0x6C], [0x6C], [0x6F], [0xC0, 0x80],
          [0x21]] : List (List Nat)).countP
          (fun blk => decide (blk = [0xC0, 0x80]))
      = ([[0x68], [0x65], [0x6C], [0x6C], [0x6F], [0xC0, 0x80],
          [0x21]] : List (List Nat)).flatten.length :=
  claim6_read_utf8
    [[0x68], [0x65], [0x6C], [0x6C], [0x6F], [0xC0, 0x80], [0x21]]
    (by decide)

/-- Claim C7, counterexample: a record list with a `Frame` whose three
string ids are all absent still fails with `DanglingClassRef`, not
`DanglingStringRef`, because an earlier dangling `InstanceDump` fails
first. -/
theorem claim7_counterexample :
    analyzeRecords
      [.heapDumpSegment 0 [.instanceDump 1 0 99 0 []],
       .frame 0 7 11 12 13 0 0] = .error .danglingClassRef ∧
    mapFind 11 (stringsPass
      [.heapDumpSegment 0 [.instanceDump 1 0 99 0 []],
       .frame 0 7 11 12 13 0 0]) = none ∧
    Err.danglingClassRef ≠ Err.danglingStringRef := by
  refine ⟨rfl, rfl, by decide⟩

/-- Claim C7, amended: whenever the resolver succeeds, every resolved
frame's three strings equal the string-table entries of the originating
`Frame` record's three ids, in order; and whenever some `Frame` record
has an id absent from the string table the resolver fails — with
`DanglingStringRef` when the frame is reached, though possibly with
`DanglingClassRef` when an earlier `InstanceDump` reference dangles
first. -/
theorem claim7_amended (records : List Record) :
    (∀ a, analyzeRecords records = .ok a →
      List.Forall₂ (frameResolved a.strings) (frameRecords records)
        a.frames) ∧
    (∀ (μ sfid mn ms sf csn : Nat) (ln : Int),
      Record.frame μ sfid mn ms sf csn ln ∈ records →
      (mapFind mn (stringsPass records) = none ∨
       mapFind ms (stringsPass records) = none ∨
       mapFind sf (stringsPass records) = none) →
      ∃ e, analyzeRecords records = .error e ∧
        (e = .danglingStringRef ∨ e = .danglingClassRef)) := by
  constructor
  · intro a ha
    unfold analyzeRecords at ha
    split at ha
    case h_2 => cases ha
    rename_i st hp2
    cases ha
    obtain ⟨new, hfr, hfa⟩ := pass2_frames hp2
    show List.Forall₂ (frameResolved (stringsPass records))
      (frameRecords records) st.frames
    rw [hfr]
    simpa using hfa
  · intro μ sfid mn ms sf csn ln hm hd
    obtain ⟨e, he, hkind⟩ :=
      pass2_dangling_frame ⟨[], [], []⟩ hm hd
    refine ⟨e, ?_, hkind⟩
    unfold analyzeRecords
    simp only [he]

/-- Claim C7, witness: the success half on a list whose frame resolves,
and the failure half on a list with a dangling frame id. -/
theorem claim7_witness :
    List.Forall₂
      (frameResolved (AnalyzedHeap.strings
        ⟨stringsPass [.utf8 0 11 [0x61], .utf8 0 12 [0x62],
            .utf8 0 13 [0x63], .frame 0 7 11 12 13 4 5, .heapDumpEnd 0],
          [],
          [⟨7, [0x61], [0x62], [0x63], 4, 5⟩], []⟩))
      (frameRecords [.utf8 0 11 [0x61], .utf8 0 12 [0x62],
        .utf8 0 13 [0x63], .frame 0 7 11 12 13 4 5, .heapDumpEnd 0])
      (AnalyzedHeap.frames
        ⟨stringsPass [.utf8 0 11 [0x61], .utf8 0 12 [0x62],
            .utf8 0 13 [0x63], .frame 0 7 11 12 13 4 5, .heapDumpEnd 0],
          [],
          [⟨7, [0x61], [0x62], [0x63], 4, 5⟩], []⟩) ∧
    (∃ e, analyzeRecords [.frame 0 7 11 12 13 0 0] = .error e ∧
      (e = .danglingStringRef ∨ e = .danglingClassRef)) :=
  ⟨(claim7_amended [.utf8 0 11 [0x61], .utf8 0 12 [0x62],
      .utf8 0 13 [0x63], .frame 0 7 11 12 13 4 5, .heapDumpEnd 0]).1
      _ (by rfl),
   (claim7_amended [.frame 0 7 11 12 13 0 0]).2 0 7 11 12 13 0 0
      (by decide) (.inl (by rfl))⟩

/-- Claim C8: a `PrimArrayDump` sub-record whose element count field is
zero decodes successfully to an empty element sequence, for every value
of the type byte, valid or not. -/
theorem claim8_prim_array_empty (oid stsn : List Nat) (t : Nat)
    (rest : List Nat) (ho : oid.length = 8) (hs : stsn.length = 4) :
    primArrayDump (oid ++ (stsn ++ ([0, 0, 0, 0] ++ (t :: rest)))) 0 =
      .ok (.primArrayDump (beNat oid) (beNat stsn) t [], 17) := by
  have h1 : readU64 (oid ++ (stsn ++ ([0, 0, 0, 0] ++ (t :: rest)))) 0 =
      .ok (beNat oid, 8) :=
    readBE_at [] oid (stsn ++ ([0, 0, 0, 0] ++ (t :: rest))) rfl ho rfl
  have h2 : readU32 (oid ++ (stsn ++ ([0, 0, 0, 0] ++ (t :: rest)))) 8 =
      .ok (beNat stsn, 12) :=
    readBE_at oid stsn ([0, 0, 0, 0] ++ (t :: rest)) rfl hs ho.symm
  have h3 : readU32 (oid ++ (stsn ++ ([0, 0, 0, 0] ++ (t :: rest)))) 12 =
      .ok (0, 16) :=
    readBE_at (oid ++ stsn) [0, 0, 0, 0] (t :: rest)
      (by simp [List.append_assoc]) rfl (by simp [ho, hs])
  have h4 : readU8 (oid ++ (stsn ++ ([0, 0, 0, 0] ++ (t :: rest)))) 16 =
      .ok (beNat [t], 17) :=
    readBE_at (oid ++ stsn ++ [0, 0, 0, 0]) [t] rest
      (by simp [List.append_assoc]) rfl (by simp [ho, hs])
  rw [beNat_singleton] at h4
  unfold primArrayDump
  simp only [h1, h2, h3, h4, readPrimElements]

/-- Claim C8, witness: count 0 with the invalid type byte `0xFF`. -/
theorem claim8_witness :
    primArrayDump
      ([9, 0, 0, 0, 0, 0, 0, 1] ++
        ([0, 0, 0, 2] ++ ([0, 0, 0, 0] ++ (0xFF :: [])))) 0 =
      .ok (.primArrayDump (beNat [9, 0, 0, 0, 0, 0, 0, 1])
        (beNat [0, 0, 0, 2]) 0xFF [], 17) :=
  claim8_prim_array_empty [9, 0, 0, 0, 0, 0, 0, 1] [0, 0, 0, 2] 0xFF []
    (by decide) (by decide)

/-- Claim C9: `Record::utf8` computes the payload length as the
unguarded `usize` subtraction `bytes_remaining − 8`.  For
`bytes_remaining < 8`, once the name id has been read the subtraction
underflows and the decoder neither returns a decoded record nor a clean
decode error (debug builds panic; release builds abort allocating the
wrapped length) — modelled by the `usizeUnderflow` outcome. -/
theorem claim9_utf8_underflow (data : List Nat) (micros br pos : Nat)
    (hbr : br < 8) (hdata : pos + 8 ≤ data.length) :
    recUtf8 data micros br pos = .error .usizeUnderflow := by
  have h1 : readU64 data pos =
      .ok (beNat ((data.drop pos).take 8), pos + 8) := by
    unfold readU64 readBE readBytes
    rw [if_pos hdata]
  have hsub : usizeSub br 8 = none := by
    unfold usizeSub
    rw [if_neg (by omega)]
  unfold recUtf8
  simp only [h1, hsub]

/-- Claim C9, witness: `bytes_remaining = 5` with the name id present. -/
theorem claim9_witness :
    recUtf8 [0, 0, 0, 0, 0, 0, 0, 7] 0 5 0 = .error .usizeUnderflow :=
  claim9_utf8_underflow [0, 0, 0, 0, 0, 0, 0, 7] 0 5 0 (by decide)
    (by decide)

/-- Claim C10: every successfully decoded `ClassDump` sub-record has
`number_of_static_fields` equal to the length of `static_fields` and
`number_of_instance_fields` equal to the length of
`instance_field_descriptors`. -/
theorem claim10_class_dump_counts (data : List Nat) (pos : Nat)
    {coid stsn sup cld sig pd r1 r2 isz cps nsf : Nat} {sf : List Field}
    {nif : Nat} {ifd : List FieldDescriptor} {p' : Nat}
    (h : subRecordNew data pos =
      .ok (.classDump coid stsn sup cld sig pd r1 r2 isz cps nsf sf nif ifd,
        p')) :
    nsf = sf.length ∧ nif = ifd.length :=
  subRecordNew_classDump_fields h

/-- Claim C10, witness: a concrete `ClassDump` with one static field and
one instance-field descriptor. -/
theorem claim10_witness : (1 : Nat) =
      ([⟨5, .boolean 1⟩] : List Field).length ∧ (1 : Nat) =
      ([⟨6, 0x0B⟩] : List FieldDescriptor).length :=
  claim10_class_dump_counts
    ([0x20] ++ (List.replicate 60 0) ++ [0, 0, 0, 4] ++ [0, 0] ++
      [0, 1] ++ [0, 0, 0, 0, 0, 0, 0, 5, 0x04, 1] ++ [0, 1] ++
      [0, 0, 0, 0, 0, 0, 0, 6, 0x0B])
    0 (by rfl)

end Heapdump
